import Mathlib

/-!
Verification development for the `ai_commit` repository.

The heart of the repository is the diff-analysis pipeline in
`packages/cli/src/core/analyzer.ts` (class `Analyzer`), driven by the
pattern tables of `packages/cli/src/core/rules.ts`, together with the
commit-message drafter of the MCP `full` tool and the configuration
validator of `packages/cli/src/core/config.ts`.

This file gives a shallow embedding of those functions and proves or
refutes the specification claims about them.

Modelling conventions:
* JS strings are Lean `String`s; all operations are defined through
  `String.data` (a `List Char`), which matches JS code-unit semantics on
  the BMP text these functions handle.
* JS regular expressions are embedded as values of a small syntax `RE`
  below, matched with ECMAScript semantics (leftmost match, ordered
  alternation, greedy/lazy repetition with backtracking); each regex
  literal of the source is transcribed node by node.
* JS `number` arithmetic appears in exactly one place (the coverage
  percentage); it is modelled exactly as IEEE-754 binary64 arithmetic
  (`Dbl`, `ddivN`, `dmulN`, `jsRoundD` below).
-/

namespace AiCommit

/-! ### Characters and string helpers (JS semantics) -/

/-- ECMAScript `LineTerminator`: LF, CR, LS, PS. -/
def isLineTerm (c : Char) : Bool :=
  c == '\n' || c == '\r' || c.val == 0x2028 || c.val == 0x2029

/-- ECMAScript `.` (without the `s` flag): any character except a line
terminator. -/
def isDot (c : Char) : Bool := !isLineTerm c

/-- ECMAScript `\s`: WhiteSpace ∪ LineTerminator. -/
def jsSpace (c : Char) : Bool :=
  c == ' ' || c == '\t' || c == '\n' || c == '\r' ||
  c.val == 0x0b || c.val == 0x0c || c.val == 0xa0 || c.val == 0x1680 ||
  (0x2000 ≤ c.val && c.val ≤ 0x200a) ||
  c.val == 0x2028 || c.val == 0x2029 || c.val == 0x202f ||
  c.val == 0x205f || c.val == 0x3000 || c.val == 0xfeff

/-- ECMAScript `\w`: `[A-Za-z0-9_]`. -/
def isWordChar (c : Char) : Bool :=
  (('a' ≤ c && c ≤ 'z') : Bool) || (('A' ≤ c && c ≤ 'Z') : Bool) ||
  (('0' ≤ c && c ≤ '9') : Bool) || c == '_'

/-- Case canonicalisation used by the `i` flag (ASCII case folding,
sufficient for the ASCII patterns of the rule table). -/
def ciChar (c : Char) : Char := c.toLower

/-- List-level substring test (JS `String.prototype.includes`). -/
def containsL : List Char → List Char → Bool
  | _, [] => true
  | [], _ :: _ => false
  | c :: t, p => (p.isPrefixOf (c :: t)) || containsL t p

/-- JS `a.includes(b)`. -/
def strContains (s sub : String) : Bool := containsL s.data sub.data

/-- JS `a.startsWith(b)`. -/
def startsW (s p : String) : Bool := p.data.isPrefixOf s.data

/-- JS `a.endsWith(b)`. -/
def endsW (s p : String) : Bool := p.data.isSuffixOf s.data

/-- Case-insensitive substring test: `regex /lit/i` tested with
`.test(s)` for a literal alternative `lit`. -/
def containsI (s sub : String) : Bool :=
  containsL (s.data.map ciChar) (sub.data.map ciChar)

/-- First-occurrence literal replacement on lists
(JS `String.prototype.replace` with a string pattern). -/
def replaceFirstL (p r : List Char) : List Char → List Char
  | [] => []
  | c :: t => if p.isPrefixOf (c :: t) then r ++ (c :: t).drop p.length
              else c :: replaceFirstL p r t

/-- JS `s.replace(pat, rep)` for a non-empty string pattern; with an
empty pattern JS inserts `rep` at position 0, which for the empty
replacements used in the source is the identity. -/
def replaceFirstStr (s pat rep : String) : String :=
  if pat.data.isEmpty then ⟨rep.data ++ s.data⟩
  else ⟨replaceFirstL pat.data rep.data s.data⟩

/-- Split on a separator character (JS `s.split(sep)` for the
one-character separators of the source: `'\n'` and `'/'`). -/
def splitChAux (sep : Char) : List Char → List Char → List String
  | [], acc => [⟨acc.reverse⟩]
  | c :: t, acc =>
      if c == sep then (⟨acc.reverse⟩ : String) :: splitChAux sep t []
      else splitChAux sep t (c :: acc)

/-- JS `s.split(sep)` for a one-character separator. -/
def splitCh (sep : Char) (s : String) : List String := splitChAux sep s.data []

/-- JS `String.prototype.trim` (strips WhiteSpace ∪ LineTerminator). -/
def jsTrim (s : String) : String :=
  ⟨((s.data.dropWhile jsSpace).reverse.dropWhile jsSpace).reverse⟩

/-! ### A small ECMAScript regular-expression engine

Only the constructs appearing in the source's regex literals are
embedded: single-character classes, literal sequences (optionally
case-insensitive), concatenation, ordered alternation, greedy and lazy
Kleene star of a character class, greedy `?`, the word boundary `\b`,
multiline `$`, and end-of-input `$`. Matching follows ECMAScript
semantics: the match attempt at the leftmost possible position wins,
alternatives are tried left to right, greedy (resp. lazy) repetitions
prefer longer (resp. shorter) runs, all with backtracking. -/

inductive RE where
  /-- a single-character class, e.g. `[+]`, `\s`, `.` -/
  | cls (f : Char → Bool)
  /-- a literal character sequence; `ci` is the `i` flag -/
  | lit (ci : Bool) (s : List Char)
  /-- concatenation -/
  | seq (p q : RE)
  /-- ordered alternation `p|q` -/
  | alt (p q : RE)
  /-- greedy star of a character class -/
  | starG (f : Char → Bool)
  /-- lazy star of a character class (`*?`) -/
  | starL (f : Char → Bool)
  /-- greedy option `p?` -/
  | opt (p : RE)
  /-- word boundary `\b` -/
  | wb
  /-- `$` under the `m` flag: end of input or before a line terminator -/
  | eolM
  /-- `$` without the `m` flag: end of input -/
  | eos
  /-- the empty regex -/
  | eps

/-- Concatenate a list of regex nodes. -/
def reCat (ps : List RE) : RE := ps.foldr RE.seq RE.eps

/-- Ordered alternation over a non-empty list of alternatives. -/
def reAlts (p : RE) (ps : List RE) : RE := ps.foldl RE.alt p

/-- Compare characters under an optional `i` flag. -/
def cEq (ci : Bool) (a b : Char) : Bool :=
  if ci then ciChar a == ciChar b else a == b

/-- Consume a literal sequence. -/
def litConsume (ci : Bool) : List Char → List Char →
    Option (Option Char × List Char)
  | [], rest => some (none, rest)
  | _ :: _, [] => none
  | p :: ps, c :: t =>
      if cEq ci p c then
        match litConsume ci ps t with
        | some (none, rest) => some (some c, rest)
        | some (some d, rest) => some (some d, rest)
        | none => none
      else none

/-- All intermediate states a class star can reach: `(previous
character, remaining input)` after consuming 0, 1, 2, … matching
characters, in increasing order of consumption. -/
def clsStates (f : Char → Bool) : Option Char → List Char →
    List (Option Char × List Char)
  | prev, [] => [(prev, [])]
  | prev, c :: t =>
      (prev, c :: t) :: (if f c then clsStates f (some c) t else [])

/-- Try a continuation on each state in order, returning the first
success (this realises backtracking priority). -/
def firstSome (k : Option Char → List Char → Option (List Char)) :
    List (Option Char × List Char) → Option (List Char)
  | [] => none
  | (pv, rest) :: more =>
      match k pv rest with
      | some r => some r
      | none => firstSome k more

/-- The matcher. `prev` is the character before the current position
(needed by `\b`); the continuation receives the updated `prev` and the
remaining input, and the result is the remaining input after a full
successful match. -/
def reRun : RE → Option Char → List Char →
    (Option Char → List Char → Option (List Char)) → Option (List Char)
  | RE.cls f, _, rest, k =>
      match rest with
      | [] => none
      | c :: t => if f c then k (some c) t else none
  | RE.lit ci s, prev, rest, k =>
      match litConsume ci s rest with
      | some (none, r) => k prev r
      | some (some c, r) => k (some c) r
      | none => none
  | RE.seq p q, prev, rest, k =>
      reRun p prev rest (fun pv r => reRun q pv r k)
  | RE.alt p q, prev, rest, k =>
      match reRun p prev rest k with
      | some r => some r
      | none => reRun q prev rest k
  | RE.starG f, prev, rest, k => firstSome k (clsStates f prev rest).reverse
  | RE.starL f, prev, rest, k => firstSome k (clsStates f prev rest)
  | RE.opt p, prev, rest, k =>
      match reRun p prev rest k with
      | some r => some r
      | none => k prev rest
  | RE.wb, prev, rest, k =>
      let before := match prev with | none => false | some c => isWordChar c
      let after := match rest with | [] => false | c :: _ => isWordChar c
      if before != after then k prev rest else none
  | RE.eolM, prev, rest, k =>
      match rest with
      | [] => k prev rest
      | c :: _ => if isLineTerm c then k prev rest else none
  | RE.eos, prev, rest, k =>
      match rest with
      | [] => k prev rest
      | _ :: _ => none
  | RE.eps, prev, rest, k => k prev rest

/-- Leftmost search: returns `(skipped prefix, matched text, rest)` for
the first position at which `p` matches. -/
def reSearchAux (p : RE) : Option Char → List Char →
    Option (List Char × List Char × List Char)
  | prev, cs =>
      match reRun p prev cs (fun _ r => some r) with
      | some r => some ([], cs.take (cs.length - r.length), r)
      | none =>
          match cs with
          | [] => none
          | c :: t =>
              match reSearchAux p (some c) t with
              | some (pre, m, r) => some (c :: pre, m, r)
              | none => none

/-- JS `regex.test(s)` (`lastIndex`-free for the non-global regexes of
the source). -/
def reTest (p : RE) (s : String) : Bool := (reSearchAux p none s.data).isSome

/-- JS `s.match(re)` for a non-global regex: the first matched text. -/
def reFirstMatch (p : RE) (s : String) : Option String :=
  (reSearchAux p none s.data).map (fun x => ⟨x.2.1⟩)

/-- JS `s.replace(re, "")` for a non-global regex: remove the first
match. -/
def reRemoveFirst (p : RE) (s : String) : String :=
  match reSearchAux p none s.data with
  | none => s
  | some (pre, _, rest) => ⟨pre ++ rest⟩

/-- All matches of a global regex, in order (JS `s.match(/…/g)`); the
fuel bounds the number of scan steps (an empty match advances one
position, per `AdvanceStringIndex`). -/
def reMatchAllAux (p : RE) : Nat → Option Char → List Char → List String
  | 0, _, _ => []
  | fuel + 1, prev, cs =>
      match reSearchAux p prev cs with
      | none => []
      | some (_, m, rest) =>
          match m with
          | [] =>
              (⟨([] : List Char)⟩ : String) ::
                (match rest with
                 | [] => []
                 | c :: t => reMatchAllAux p fuel (some c) t)
          | _ :: _ => (⟨m⟩ : String) :: reMatchAllAux p fuel m.getLast? rest

/-- JS `s.match(/…/g)`, with `null` modelled as `[]`. -/
def reMatchAll (p : RE) (s : String) : List String :=
  reMatchAllAux p (s.data.length + 1) none s.data

/-- Shorthand for a one-character class `[c]`. -/
def chCls (c : Char) : RE := RE.cls (· == c)

/-- `X+` for a character class `X`. -/
def plusCls (f : Char → Bool) : RE := RE.seq (RE.cls f) (RE.starG f)

/-! ### `packages/shared`: severity, and the analysis value records -/

/-- `Severity = 'HIGH' | 'MEDIUM' | 'LOW'` of `packages/shared`. -/
inductive Severity where
  | HIGH
  | MEDIUM
  | LOW
deriving DecidableEq, Repr

/-- `AnalysisRule` of `packages/shared`: the pattern is a regex, the
category a string, the description a function of the matched text. -/
structure AnalysisRule where
  name : String
  pattern : RE
  severity : Severity
  category : String
  description : String → String

/-! ### `packages/cli/src/core/rules.ts`: the default rule table -/

/-- Transcribes `/[+]\s*(?:#|\/\/|\/\*)\s*KW[:\s]*(.*)/gi`, the shared
shape of the TODO/FIXME/HACK/XXX comment rules (`kw` is the keyword). -/
def commentKeywordRe (kw : String) : RE :=
  reCat [chCls '+', RE.starG jsSpace,
    reAlts (RE.lit true "#".data) [RE.lit true "//".data, RE.lit true "/*".data],
    RE.starG jsSpace, RE.lit true kw.data,
    RE.starG (fun c => c == ':' || jsSpace c), RE.starG isDot]

/-- Transcribes `/[+]\s*(?:#|\/\/|\/\*)\s*KW[:\s]*/i`, the prefix regex
the comment-rule descriptions strip with `.replace(…, '')`. -/
def commentKeywordPre (kw : String) : RE :=
  reCat [chCls '+', RE.starG jsSpace,
    reAlts (RE.lit true "#".data) [RE.lit true "//".data, RE.lit true "/*".data],
    RE.starG jsSpace, RE.lit true kw.data,
    RE.starG (fun c => c == ':' || jsSpace c)]

/-- The description function of the comment rules:
`match.replace(prefixRe, '').trim()`, with `'unspecified'` when empty,
interpolated into the rule's message. -/
def commentKeywordDescription (kw : String) (m : String) : String :=
  let comment := jsTrim (reRemoveFirst (commentKeywordPre kw) m)
  kw ++ " comment added: " ++ (if comment = "" then "unspecified" else comment)

/-- Transcribes `/console\.log\((.*?)\)/` (the inner regex of the
Console Log description). -/
def consoleLogInnerRe : RE :=
  reCat [RE.lit false "console.log(".data, RE.starL isDot, chCls ')']

/-- `match.match(/console\.log\((.*?)\)/)?.[1] || ''`: the lazy capture
is the matched text minus the `console.log(` head and `)` tail. -/
def consoleLogContent (m : String) : String :=
  match reFirstMatch consoleLogInnerRe m with
  | some t => ⟨(t.data.drop 12).dropLast⟩
  | none => ""

/-- Transcribes the keyword alternation
`(password|secret|api[_-]?key|token|credential|private[_-]?key)` with
the `i` flag. -/
def securityKeywordAlt : RE :=
  reAlts (RE.lit true "password".data)
    [RE.lit true "secret".data,
     reCat [RE.lit true "api".data, RE.opt (RE.cls (fun c => c == '_' || c == '-')),
       RE.lit true "key".data],
     RE.lit true "token".data,
     RE.lit true "credential".data,
     reCat [RE.lit true "private".data, RE.opt (RE.cls (fun c => c == '_' || c == '-')),
       RE.lit true "key".data]]

/-- Transcribes `/fs\.(\w+Sync)/` (the inner regex of the
Synchronous File Operation description). -/
def fsSyncInnerRe : RE :=
  reCat [RE.lit false "fs.".data, RE.seq (RE.cls isWordChar) (RE.starG isWordChar),
    RE.lit false "Sync".data]

/-- `match.match(/fs\.(\w+Sync)/)?.[1]`: the capture is the matched
text minus the `fs.` head. -/
def syncMethodName (m : String) : String :=
  match reFirstMatch fsSyncInnerRe m with
  | some t => ⟨t.data.drop 3⟩
  | none => "undefined"

/-- Transcribes `/@ts-(ignore|nocheck)/` (the inner regex of the
TypeScript Ignore description). -/
def tsIgnoreInnerRe : RE :=
  reCat [RE.lit false "@ts-".data,
    reAlts (RE.lit false "ignore".data) [RE.lit false "nocheck".data]]

/-- `match.match(/@ts-(ignore|nocheck)/)?.[1]`: the capture is the
matched text minus the `@ts-` head. -/
def tsIgnoreDirective (m : String) : String :=
  match reFirstMatch tsIgnoreInnerRe m with
  | some t => ⟨t.data.drop 4⟩
  | none => "undefined"

/-- `DEFAULT_RULES` of `rules.ts`, in source order. -/
def DEFAULT_RULES : List AnalysisRule := [
  { name := "TODO Comment",
    pattern := commentKeywordRe "TODO",
    severity := Severity.LOW,
    category := "technical-debt",
    description := commentKeywordDescription "TODO" },
  { name := "FIXME Comment",
    pattern := commentKeywordRe "FIXME",
    severity := Severity.MEDIUM,
    category := "technical-debt",
    description := commentKeywordDescription "FIXME" },
  { name := "HACK Comment",
    pattern := commentKeywordRe "HACK",
    severity := Severity.MEDIUM,
    category := "technical-debt",
    description := commentKeywordDescription "HACK" },
  { name := "XXX Comment",
    pattern := commentKeywordRe "XXX",
    severity := Severity.MEDIUM,
    category := "technical-debt",
    description := commentKeywordDescription "XXX" },
  { name := "Console Log",
    -- /[+].*console\.log\((.*?)\)/g
    pattern := reCat [chCls '+', RE.starG isDot, RE.lit false "console.log(".data,
      RE.starL isDot, chCls ')'],
    severity := Severity.LOW,
    category := "technical-debt",
    description := fun m =>
      "Debug log left in code: console.log(" ++ consoleLogContent m ++ ")" },
  { name := "Debugger Statement",
    -- /[+].*\bdebugger\b/g
    pattern := reCat [chCls '+', RE.starG isDot, RE.wb,
      RE.lit false "debugger".data, RE.wb],
    severity := Severity.MEDIUM,
    category := "technical-debt",
    description := fun _ => "Debugger statement left in code" },
  { name := "Security Keyword",
    -- /[+].*(password|secret|api[_-]?key|token|credential|private[_-]?key)/gi
    pattern := reCat [chCls '+', RE.starG isDot, securityKeywordAlt],
    severity := Severity.HIGH,
    category := "security",
    description := fun m =>
      "Potential security-sensitive code change detected: " ++
        (reFirstMatch securityKeywordAlt m).getD "undefined" },
  { name := "Hardcoded Credential",
    -- /[+].*(password|apikey|api_key|secret)\s*=\s*['"]/gi
    pattern := reCat [chCls '+', RE.starG isDot,
      reAlts (RE.lit true "password".data) [RE.lit true "apikey".data,
        RE.lit true "api_key".data, RE.lit true "secret".data],
      RE.starG jsSpace, chCls '=', RE.starG jsSpace,
      RE.cls (fun c => c == '\'' || c == '"')],
    severity := Severity.HIGH,
    category := "security",
    description := fun _ => "Potential hardcoded credential detected" },
  { name := "Synchronous File Operation",
    -- /[+].*fs\.(readFileSync|writeFileSync|existsSync)/g
    pattern := reCat [chCls '+', RE.starG isDot, RE.lit false "fs.".data,
      reAlts (RE.lit false "readFileSync".data)
        [RE.lit false "writeFileSync".data, RE.lit false "existsSync".data]],
    severity := Severity.LOW,
    category := "performance",
    description := fun m => "Synchronous file operation: " ++ syncMethodName m },
  { name := "ESLint Disable",
    -- /[+].*eslint-disable/g
    pattern := reCat [chCls '+', RE.starG isDot, RE.lit false "eslint-disable".data],
    severity := Severity.LOW,
    category := "code-quality",
    description := fun _ => "ESLint rule disabled" },
  { name := "TypeScript Ignore",
    -- /[+].*@ts-(ignore|nocheck)/g
    pattern := reCat [chCls '+', RE.starG isDot, RE.lit false "@ts-".data,
      reAlts (RE.lit false "ignore".data) [RE.lit false "nocheck".data]],
    severity := Severity.MEDIUM,
    category := "code-quality",
    description := fun m =>
      "TypeScript error suppressed: @ts-" ++ tsIgnoreDirective m },
  { name := "Any Type Usage",
    -- /[+].*:\s*any\b/g
    pattern := reCat [chCls '+', RE.starG isDot, chCls ':', RE.starG jsSpace,
      RE.lit false "any".data, RE.wb],
    severity := Severity.LOW,
    category := "code-quality",
    description := fun _ => "TypeScript \"any\" type used" }
]

/-- One entry of `RISK_PATTERNS`: the path test, severity, message. -/
structure RiskConfig where
  patternTest : String → Bool
  severity : Severity
  description : String

/-- `RISK_PATTERNS` of `rules.ts`, in object-literal order (this is the
iteration order of `Object.entries`). Each regex is a case-insensitive
alternation of literals, i.e. a case-insensitive substring test; note
`models?` matches exactly when `model` occurs. -/
def RISK_PATTERNS : List (String × RiskConfig) := [
  ("database",
   { patternTest := fun f => containsI f "migration" || containsI f "schema" ||
       containsI f "model" || containsI f "database",
     severity := Severity.HIGH,
     description := "Database schema changes require careful migration testing" }),
  ("security",
   { patternTest := fun f => containsI f "auth" || containsI f "security" ||
       containsI f "password" || containsI f "encrypt" || containsI f "decrypt" ||
       containsI f "session",
     severity := Severity.HIGH,
     description := "Security-related changes require thorough review and testing" }),
  ("api",
   { patternTest := fun f => containsI f "api" || containsI f "endpoint" ||
       containsI f "route" || containsI f "controller",
     severity := Severity.MEDIUM,
     description := "API changes may affect clients and require versioning consideration" }),
  ("config",
   { patternTest := fun f => containsI f "config" || containsI f "settings" ||
       containsI f ".env",
     severity := Severity.MEDIUM,
     description := "Configuration changes may affect deployment and environments" }),
  ("infrastructure",
   { patternTest := fun f => containsI f "docker" || containsI f "kubernetes" ||
       containsI f "k8s" || containsI f "terraform" || containsI f "deployment",
     severity := Severity.HIGH,
     description := "Infrastructure changes require deployment planning" })
]

/-- Transcribes `/test_.*\.py$/` (unanchored at the left; `.` does not
cross line terminators). -/
def testUnderscorePyRe : RE :=
  reCat [RE.lit false "test_".data, RE.starG isDot, RE.lit false ".py".data, RE.eos]

/-- `TEST_FILE_PATTERNS.some(p => p.test(file))`. Each anchored
alternation `/\.test\.(ts|tsx|js|jsx)$/` is an `endsWith` test against
each alternative; `/\/tests?\//` and `/\/__tests__\//` are substring
tests. -/
def matchesTestFile (f : String) : Bool :=
  endsW f ".test.ts" || endsW f ".test.tsx" || endsW f ".test.js" || endsW f ".test.jsx" ||
  endsW f ".spec.ts" || endsW f ".spec.tsx" || endsW f ".spec.js" || endsW f ".spec.jsx" ||
  strContains f "/test/" || strContains f "/tests/" ||
  strContains f "/__tests__/" ||
  endsW f ".test.py" ||
  reTest testUnderscorePyRe f

/-- `SOURCE_FILE_PATTERNS.some(p => p.test(file))`:
`/\.(ts|tsx|js|jsx|py|go|java|rs|c|cpp|h|hpp)$/`. -/
def matchesSourceFile (f : String) : Bool :=
  [".ts", ".tsx", ".js", ".jsx", ".py", ".go", ".java", ".rs",
   ".c", ".cpp", ".h", ".hpp"].any (fun e => endsW f e)

/-- `EXCLUDED_PATTERNS.some(p => p.test(file))`. -/
def matchesExcluded (f : String) : Bool :=
  strContains f "node_modules" || strContains f ".git/" ||
  strContains f "dist/" || strContains f "build/" || strContains f "coverage/" ||
  endsW f ".min.js" || endsW f ".min.css" ||
  endsW f "package-lock.json" || endsW f "yarn.lock"

/-! ### Exact model of JS `number` arithmetic (IEEE-754 binary64)

The analyzer computes the coverage percentage with JS floating-point
division and multiplication. A nonnegative normal double is a mantissa
`m ∈ [2^52, 2^53)` and an exponent, with value `m · 2^(e-52)` (zero is
`m = 0`); division and multiplication produce the representable double
nearest to the exact result, ties to even, which on the normal,
non-overflowing range used here (quotients in `[2^-32, 1]` and their
hundredfolds, together with `0`) is exactly what `ddivN`/`dmulN` below
compute. `Math.round` returns the closest integer with ties toward
positive infinity, i.e. `⌊x + 1/2⌋` on the exact rational value of its
double argument, which `jsRoundD` computes by integer division. -/

/-- A nonnegative binary64 value: `m · 2^(e-52)`, with `m = 0` or
`2^52 ≤ m < 2^53` after normalisation. -/
structure Dbl where
  m : ℕ
  e : ℤ
deriving DecidableEq, Repr

/-- The exact rational value of a double. -/
def dval (x : Dbl) : ℚ := (x.m : ℚ) * (2 : ℚ) ^ (x.e - 52)

/-- Largest `e` with `2^e * b ≤ a`, for `1 ≤ b ≤ a` (the binade
exponent of `a / b ≥ 1`); structural in the fuel, `a` fuel suffices. -/
def expUp : Nat → ℕ → ℕ → ℕ
  | 0, _, _ => 0
  | fuel + 1, a, b => if a < 2 * b then 0 else expUp fuel a (2 * b) + 1

/-- Smallest `k ≥ 1` with `b ≤ 2^k * a`, for `1 ≤ a < b` (so the
binade exponent of `a / b < 1` is `-k`); `b` fuel suffices. -/
def expDown : Nat → ℕ → ℕ → ℕ
  | 0, _, _ => 0
  | fuel + 1, a, b => if b ≤ 2 * a then 1 else expDown fuel (2 * a) b + 1

/-- Round `x / y` (with `1 ≤ y`) to the nearest natural, ties to
even. -/
def rheFrac (x y : ℕ) : ℕ :=
  if 2 * (x % y) < y then x / y
  else if y < 2 * (x % y) then x / y + 1
  else if (x / y) % 2 = 0 then x / y else x / y + 1

/-- Renormalise a mantissa that rounding pushed up to `2^53`
(value-preserving). -/
def normD (m : ℕ) (e : ℤ) : Dbl :=
  if m = 2 ^ 53 then ⟨2 ^ 52, e + 1⟩ else ⟨m, e⟩

/-- The binade exponent of `a / b` (for `a`, `b ≥ 1`). -/
def ddivExp (a b : ℕ) : ℤ :=
  if b ≤ a then (expUp a a b : ℤ) else -(expDown b a b : ℤ)

/-- The rounded 53-bit significand of `a / b` at exponent `e`: the
quotient is scaled into `[2^52, 2^53)` and rounded, ties to even. -/
def ddivMant (a b : ℕ) (e : ℤ) : ℕ :=
  if 0 ≤ 52 - e then rheFrac (a * 2 ^ (52 - e).toNat) b
  else rheFrac a (b * 2 ^ (e - 52).toNat)

/-- JS `a / b` for naturals `a`, `b ≥ 1` (exactly representable in the
source: array lengths): the correctly rounded binary64 quotient. -/
def ddivN (a b : ℕ) : Dbl :=
  if a = 0 then ⟨0, 0⟩
  else normD (ddivMant a b (ddivExp a b)) (ddivExp a b)

/-- JS `x * y` on nonnegative doubles: the correctly rounded binary64
product (the mantissa product lies in `[2^104, 2^106)`). -/
def dmulN (x y : Dbl) : Dbl :=
  if x.m = 0 ∨ y.m = 0 then ⟨0, 0⟩
  else if x.m * y.m < 2 ^ 105 then normD (rheFrac (x.m * y.m) (2 ^ 52)) (x.e + y.e)
  else normD (rheFrac (x.m * y.m) (2 ^ 53)) (x.e + y.e + 1)

/-- The double `100` (`100 = (100 · 2^46) · 2^(6-52)`). -/
def dbl100 : Dbl := ⟨100 * 2 ^ 46, 6⟩

/-- JS `Math.round` on a nonnegative double: `⌊value + 1/2⌋`, exactly,
by integer division. -/
def jsRoundD (x : Dbl) : ℤ :=
  if 52 ≤ x.e then (x.m : ℤ) * 2 ^ (x.e - 52).toNat
  else ((2 * x.m + 2 ^ (52 - x.e).toNat) / 2 ^ (53 - x.e).toNat : ℕ)

/-! ### The analysis value records -/

/-- `TechnicalDebtItem` (absent `file`/`line` are `none`). -/
structure TechnicalDebtItem where
  type : String
  severity : Severity
  description : String
  line : Option Nat
  file : Option String
  category : String
deriving DecidableEq, Repr

/-- `RiskItem` (the heuristic risks omit `affectedFiles`). -/
structure RiskItem where
  type : String
  severity : Severity
  description : String
  category : String
  affectedFiles : Option (List String)
deriving DecidableEq, Repr

/-- `TestCoverageInfo`; `coveragePercentage` is the integral double
produced by `Math.round`. -/
structure TestCoverageInfo where
  hasTests : Bool
  testFiles : List String
  missingTests : List String
  coveragePercentage : ℤ
deriving DecidableEq, Repr

/-- `ArchitectureImpact`; `requiresReview` starts out absent. -/
structure ArchitectureImpact where
  level : Severity
  areas : List String
  notes : List String
  requiresReview : Option Bool
deriving DecidableEq, Repr

/-- `AnalysisResult`. -/
structure AnalysisResult where
  technicalDebt : List TechnicalDebtItem
  risks : List RiskItem
  testCoverage : TestCoverageInfo
  architectureImpact : ArchitectureImpact
deriving DecidableEq, Repr

/-! ### `packages/cli/src/core/analyzer.ts`: class `Analyzer` -/

namespace Analyzer

/-- The constructor: `this.rules = [...DEFAULT_RULES, ...customRules]`
(no validation of the custom rules). -/
def analyzerRules (customRules : List AnalysisRule) : List AnalysisRule :=
  DEFAULT_RULES ++ customRules

/-- `filterFiles`. -/
def filterFiles (files : List String) : List String :=
  files.filter (fun file => !matchesExcluded file)

/-- `isTechnicalDebtRule`. -/
def isTechnicalDebtRule (category : String) : Bool :=
  ["technical-debt", "code-quality", "documentation"].contains category

/-- `findLineNumber`: the 1-based index of the first diff line that
contains the matched text, `none` when no line does. -/
def findLineNumberAux (m : String) : List String → Nat → Option Nat
  | [], _ => none
  | l :: t, i => if strContains l m then some (i + 1) else findLineNumberAux m t (i + 1)

/-- `findLineNumber(diffLines, match)`. -/
def findLineNumber (diffLines : List String) (m : String) : Option Nat :=
  findLineNumberAux m diffLines 0

/-- `line.match(/b\/(.*)/)`: the capture after the first `b/` of a
header line (`none` when the line has no `b/`). -/
def headerPath (line : String) : Option String :=
  match reSearchAux (reCat [RE.lit false "b/".data, RE.starG isDot]) none line.data with
  | some (_, m, _) => some ⟨m.drop 2⟩
  | none => none

/-- `findFileForMatch`: scan backwards from the match's line for the
nearest `diff --git` header and extract its `b/` path; the scan stops
at the first header found. -/
def findFileForMatch (diffLines : List String) (lineNumber : Option Nat) : Option String :=
  match lineNumber with
  | none => none
  | some ln =>
      match ((diffLines.take ln).reverse).find? (fun l => startsW l "diff --git") with
      | none => none
      | some l => headerPath l

/-- `detectTechnicalDebt`: for every rule of a technical-debt category,
emit one item per match of its (global) pattern in the diff; the second
source parameter (the filtered file list) is unused by the body. -/
def detectTechnicalDebt (rules : List AnalysisRule) (diff : String)
    (_files : List String) : List TechnicalDebtItem :=
  let diffLines := splitCh '\n' diff
  rules.flatMap (fun rule =>
    if !isTechnicalDebtRule rule.category then []
    else
      (reMatchAll rule.pattern diff).map (fun m =>
        let lineNumber := findLineNumber diffLines m
        { type := rule.name,
          severity := rule.severity,
          description := rule.description m,
          line := lineNumber,
          file := findFileForMatch diffLines lineNumber,
          category := rule.category }))

/-- `capitalize`. -/
def capitalize (s : String) : String :=
  match s.data with
  | [] => ""
  | c :: t => ⟨c.toUpper :: t⟩

/-- `getRiskCategory`. -/
def getRiskCategory (riskType : String) : String :=
  if riskType = "database" then "data-loss"
  else if riskType = "security" then "security"
  else if riskType = "api" then "breaking-change"
  else if riskType = "config" then "performance"
  else if riskType = "infrastructure" then "breaking-change"
  else "performance"

/-- Transcribes
the first breaking pattern, `-` `\s*` `(export\s+)?` `(class|interface|function|const|let|var)` `\s+` `\w+`. -/
def breakingRe1 : RE :=
  reCat [chCls '-', RE.starG jsSpace,
    RE.opt (reCat [RE.lit false "export".data, plusCls jsSpace]),
    reAlts (RE.lit false "class".data)
      [RE.lit false "interface".data, RE.lit false "function".data,
       RE.lit false "const".data, RE.lit false "let".data, RE.lit false "var".data],
    plusCls jsSpace, plusCls isWordChar]

/-- Transcribes the second breaking pattern, `-` `\s*` `(public|private|protected)` `\s+` `\w+` `(`. -/
def breakingRe2 : RE :=
  reCat [chCls '-', RE.starG jsSpace,
    reAlts (RE.lit false "public".data)
      [RE.lit false "private".data, RE.lit false "protected".data],
    plusCls jsSpace, plusCls isWordChar, chCls '(']

/-- Transcribes the third breaking pattern, `-` `\s*` `def` `\s+` `\w+` `(`. -/
def breakingRe3 : RE :=
  reCat [chCls '-', RE.starG jsSpace, RE.lit false "def".data,
    plusCls jsSpace, plusCls isWordChar, chCls '(']

/-- `hasBreakingChanges`. -/
def hasBreakingChanges (diff : String) : Bool :=
  [breakingRe1, breakingRe2, breakingRe3].any (fun p => reTest p diff)

/-- Transcribes the removal pattern `-` `.*` `$` with the `g` and `m` flags (note: the `-` may occur anywhere in a line,
not only as a prefix; the match runs from the first `-` of the line to
its end). -/
def removalRe : RE := reCat [chCls '-', RE.starG isDot, RE.eolM]

/-- Transcribes `/\+.*$/gm`. -/
def additionRe : RE := reCat [chCls '+', RE.starG isDot, RE.eolM]

/-- `diff.match` of the removal pattern, with `null` as `[]`. -/
def removalsOf (diff : String) : List String := reMatchAll removalRe diff

/-- `diff.match(/\+.*$/gm) || []`. -/
def additionsOf (diff : String) : List String := reMatchAll additionRe diff

/-- The `dataPatterns` of `hasDataStructureChanges`:
`/interface\s+\w+.*\{/`, `/type\s+\w+\s*=/`, `/class\s+\w+.*\{/`,
`/@dataclass/`. -/
def dataPatterns : List RE :=
  [reCat [RE.lit false "interface".data, plusCls jsSpace, plusCls isWordChar,
     RE.starG isDot, chCls '\x7b'],
   reCat [RE.lit false "type".data, plusCls jsSpace, plusCls isWordChar,
     RE.starG jsSpace, chCls '='],
   reCat [RE.lit false "class".data, plusCls jsSpace, plusCls isWordChar,
     RE.starG isDot, chCls '\x7b'],
   RE.lit false "@dataclass".data]

/-- `hasDataStructureChanges`: some data pattern matches both a removal
segment and an addition segment of the diff. -/
def hasDataStructureChanges (diff : String) : Bool :=
  let removals := removalsOf diff
  let additions := additionsOf diff
  dataPatterns.any (fun p =>
    removals.any (fun line => reTest p line) &&
    additions.any (fun line => reTest p line))

/-- The `Breaking Change` item pushed by `assessRisks`. -/
def breakingChangeRisk : RiskItem :=
  { type := "Breaking Change",
    severity := Severity.HIGH,
    description := "Function/method signature or interface changed",
    category := "breaking-change",
    affectedFiles := none }

/-- The `Data Structure Change` item pushed by `assessRisks`. -/
def dataStructureChangeRisk : RiskItem :=
  { type := "Data Structure Change",
    severity := Severity.MEDIUM,
    description := "Data structure or schema modified",
    category := "data-loss",
    affectedFiles := none }

/-- `assessRisks`: one item per risk area with matching files, then the
breaking-change and data-structure-change heuristics. -/
def assessRisks (diff : String) (files : List String) : List RiskItem :=
  (RISK_PATTERNS.filterMap (fun entry =>
    let affectedFiles := files.filter (fun file => entry.2.patternTest file)
    if affectedFiles.isEmpty then none
    else some
      { type := capitalize entry.1,
        severity := entry.2.severity,
        description := entry.2.description,
        category := getRiskCategory entry.1,
        affectedFiles := some affectedFiles })) ++
  (if hasBreakingChanges diff then [breakingChangeRisk] else []) ++
  (if hasDataStructureChanges diff then [dataStructureChangeRisk] else [])

/-- Index of the last `/` of a path (`s.lastIndexOf('/')`, `none` for
`-1`). -/
def lastSlashAux : List Char → Nat → Option Nat → Option Nat
  | [], _, acc => acc
  | x :: t, i, acc => lastSlashAux t (i + 1) (if x == '/' then some i else acc)

/-- `s.lastIndexOf('/')` as an `Option`. -/
def lastSlash (s : String) : Option Nat := lastSlashAux s.data 0 none

/-- `s.split('/').pop()` (never `undefined`: `split` is non-empty). -/
def lastComponent (s : String) : String := (splitCh '/' s).getLastD ""

/-- `getTestFileVariations`: the extension is
`sourceFile.match(/\.(ts|tsx|js|jsx|py)$/)?.[0] || ''` (the anchored
alternation is an `endsWith` cascade), and `baseName` removes the
*first* occurrence of that extension string
(`String.prototype.replace` with a string pattern). -/
def getTestFileVariations (sourceFile : String) : List String :=
  let ext :=
    if endsW sourceFile ".ts" then ".ts"
    else if endsW sourceFile ".tsx" then ".tsx"
    else if endsW sourceFile ".js" then ".js"
    else if endsW sourceFile ".jsx" then ".jsx"
    else if endsW sourceFile ".py" then ".py"
    else ""
  let baseName := replaceFirstStr sourceFile ext ""
  [baseName ++ ".test" ++ ext,
   baseName ++ ".spec" ++ ext,
   -- sourceFile.replace(/^src\//, 'tests/'), a no-op off `src/`
   (if startsW sourceFile "src/" then "tests/" ++ (⟨sourceFile.data.drop 4⟩ : String)
    else sourceFile),
   (if startsW sourceFile "src/" then "__tests__/" ++ (⟨sourceFile.data.drop 4⟩ : String)
    else sourceFile)] ++
  (if ext = ".py" then
    let fileName := replaceFirstStr (lastComponent sourceFile) ".py" ""
    let dir := match lastSlash sourceFile with
      | none => ""  -- substring(0, -1) is the empty string
      | some i => (⟨sourceFile.data.take i⟩ : String)
    [dir ++ "/test_" ++ fileName ++ ".py"]
  else [])

/-- The `sourceFiles` local of `checkTestCoverage`. -/
def sourceFilesIn (files : List String) : List String :=
  files.filter matchesSourceFile

/-- The `testFiles` local of `checkTestCoverage`. -/
def testFilesIn (files : List String) : List String :=
  files.filter matchesTestFile

/-- The `missingTests` local of `checkTestCoverage`: source files none
of whose test-file variations occur among the changed test files. -/
def missingTestsIn (files : List String) : List String :=
  (sourceFilesIn files).filter (fun sourceFile =>
    !((getTestFileVariations sourceFile).any
      (fun testFile => (testFilesIn files).contains testFile)))

/-- `checkTestCoverage`: the percentage is
`((N - M) / N) * 100` computed with JS doubles when `N > 0` (`M ≤ N`
always holds, `missingTests` being a sub-filter of `sourceFiles`), `100`
otherwise, then `Math.round`ed (`Math.round(100)` is `100`). -/
def checkTestCoverage (files : List String) : TestCoverageInfo :=
  let sourceFiles := sourceFilesIn files
  let testFiles := testFilesIn files
  let missingTests := missingTestsIn files
  let coveragePercentage : ℤ :=
    if 0 < sourceFiles.length then
      jsRoundD (dmulN (ddivN (sourceFiles.length - missingTests.length)
        sourceFiles.length) dbl100)
    else 100
  { hasTests := !testFiles.isEmpty,  -- testFiles.length > 0
    testFiles := testFiles,
    missingTests := missingTests,
    coveragePercentage := coveragePercentage }

/-- `corePatterns.some(p => p.test(file))` over the files:
`/core|services|infrastructure|shared/i`. -/
def hasCoreChanges (files : List String) : Bool :=
  files.any (fun f => containsI f "core" || containsI f "services" ||
    containsI f "infrastructure" || containsI f "shared")

/-- `/api|endpoints|routes|controllers/i` over the files. -/
def hasAPIChanges (files : List String) : Bool :=
  files.any (fun f => containsI f "api" || containsI f "endpoints" ||
    containsI f "routes" || containsI f "controllers")

/-- `/config|settings|\.env/i` over the files. -/
def hasConfigChanges (files : List String) : Bool :=
  files.any (fun f => containsI f "config" || containsI f "settings" ||
    containsI f ".env")

/-- `/migration|schema|models/i` over the files. -/
def hasDBChanges (files : List String) : Bool :=
  files.any (fun f => containsI f "migration" || containsI f "schema" ||
    containsI f "models")

/-- The initial `impact` record of `analyzeArchitecture`. -/
def initialImpact : ArchitectureImpact :=
  { level := Severity.LOW, areas := [], notes := [], requiresReview := none }

/-- The core/services block of `analyzeArchitecture`. -/
def coreStep (files : List String) (impact : ArchitectureImpact) : ArchitectureImpact :=
  if hasCoreChanges files then
    { level := Severity.HIGH,
      areas := impact.areas ++ ["Core Services"],
      notes := impact.notes ++ ["Changes affect core infrastructure"],
      requiresReview := some true }
  else impact

/-- The API block of `analyzeArchitecture`
(`impact.level = impact.level === 'HIGH' ? 'HIGH' : 'MEDIUM'`). -/
def apiStep (files : List String) (impact : ArchitectureImpact) : ArchitectureImpact :=
  if hasAPIChanges files then
    { impact with
      level := if impact.level = Severity.HIGH then Severity.HIGH else Severity.MEDIUM,
      areas := impact.areas ++ ["API"],
      notes := impact.notes ++ ["API changes may affect clients"] }
  else impact

/-- The configuration block of `analyzeArchitecture`. -/
def configStep (files : List String) (impact : ArchitectureImpact) : ArchitectureImpact :=
  if hasConfigChanges files then
    { impact with
      level := if impact.level = Severity.HIGH then Severity.HIGH else Severity.MEDIUM,
      areas := impact.areas ++ ["Configuration"],
      notes := impact.notes ++ ["Configuration changes affect deployment"] }
  else impact

/-- The database block of `analyzeArchitecture`. -/
def dbStep (files : List String) (impact : ArchitectureImpact) : ArchitectureImpact :=
  if hasDBChanges files then
    { level := Severity.HIGH,
      areas := impact.areas ++ ["Database"],
      notes := impact.notes ++ ["Database changes require migration planning"],
      requiresReview := some true }
  else impact

/-- `analyzeArchitecture`: the four blocks applied in source order. -/
def analyzeArchitecture (files : List String) : ArchitectureImpact :=
  dbStep files (configStep files (apiStep files (coreStep files initialImpact)))

/-- `analyze(diff, files)` on an analyzer constructed with
`customRules` (a pure function: the `async` of the source wraps a value
that depends only on the inputs). -/
def analyze (customRules : List AnalysisRule) (diff : String)
    (files : List String) : AnalysisResult :=
  let rules := analyzerRules customRules
  let filteredFiles := filterFiles files
  { technicalDebt := detectTechnicalDebt rules diff filteredFiles,
    risks := assessRisks diff filteredFiles,
    testCoverage := checkTestCoverage filteredFiles,
    architectureImpact := analyzeArchitecture filteredFiles }

end Analyzer

/-! ### State threading for the module-level global regexes

The default rules are module-level regex objects carrying the `g` flag,
whose only mutable state is `lastIndex`. `String.prototype.match` with
a global regex sets `lastIndex` to `0` before scanning and the final
failing `exec` resets it to `0` again (ECMAScript
`RegExp.prototype[Symbol.match]` / `RegExpBuiltinExec`), so the
incoming value is never consulted. The stateful analyzer below threads
one `lastIndex` per rule to make that explicit. -/

namespace Analyzer

/-- `s.match(re)` for a global regex, with the `lastIndex` state made
explicit: the incoming index is reset before the scan and the final
value is `0`. -/
def jsMatchGSt (p : RE) (_lastIndex : Nat) (s : String) : List String × Nat :=
  (reMatchAll p s, 0)

/-- `detectTechnicalDebt`, threading each rule's `lastIndex`; a rule
skipped by the category guard never executes its regex, so its state is
untouched. -/
def detectTechnicalDebtSt (diffLines : List String) (diff : String) :
    List AnalysisRule → List Nat → List TechnicalDebtItem × List Nat
  | [], st => ([], st)
  | rule :: rest, st =>
      let li := st.headD 0
      if !isTechnicalDebtRule rule.category then
        let (items, st') := detectTechnicalDebtSt diffLines diff rest st.tail
        (items, li :: st')
      else
        let (ms, li') := jsMatchGSt rule.pattern li diff
        let items := ms.map (fun m =>
          let lineNumber := findLineNumber diffLines m
          { type := rule.name,
            severity := rule.severity,
            description := rule.description m,
            line := lineNumber,
            file := findFileForMatch diffLines lineNumber,
            category := rule.category : TechnicalDebtItem })
        let (items', st') := detectTechnicalDebtSt diffLines diff rest st.tail
        (items ++ items', li' :: st')

/-- `analyze` with the rule regexes' `lastIndex` state threaded; the
other passes use only non-global regexes, whose `test` does not read
`lastIndex`. -/
def analyzeSt (customRules : List AnalysisRule) (st : List Nat) (diff : String)
    (files : List String) : AnalysisResult × List Nat :=
  let rules := analyzerRules customRules
  let filteredFiles := filterFiles files
  let (debt, st') := detectTechnicalDebtSt (splitCh '\n' diff) diff rules st
  ({ technicalDebt := debt,
     risks := assessRisks diff filteredFiles,
     testCoverage := checkTestCoverage filteredFiles,
     architectureImpact := analyzeArchitecture filteredFiles }, st')

end Analyzer

/-! ### `packages/mcp-server/src/tools/full.ts`: the commit-message
drafter `generateCommitMessage(analysis, files, diff)` -/

namespace McpFull

/-- Index of the last `.` of a name. -/
def lastDotAux : List Char → Nat → Option Nat → Option Nat
  | [], _, acc => acc
  | x :: t, i, acc => lastDotAux t (i + 1) (if x == '.' then some i else acc)

/-- `name.replace(/\.[^.]+$/, '')`: strip the final dot-extension when
at least one character follows the last dot. -/
def stripLastExt (s : String) : String :=
  match lastDotAux s.data 0 none with
  | none => s
  | some i => if i + 1 < s.data.length then (⟨s.data.take i⟩ : String) else s

/-- `generateCommitMessage(analysis, files, diff)` of the `full` tool
(`analysis` is read only for the unused `notes` local). The dead
`fileTypes` local of the source is omitted. -/
def generateCommitMessage (_analysis : AnalysisResult) (files : List String)
    (diff : String) : String :=
  let type :=
    if files.any (fun f => strContains f "test" || strContains f "spec") then "test"
    else if files.any (fun f => endsW f ".md" || strContains f "doc") then "docs"
    else if strContains diff "function" || strContains diff "class" ||
        strContains diff "const" then
      (if strContains diff "export" && strContains diff "new " then "feat"
       else if strContains diff "fix" || strContains diff "bug" then "fix"
       else "refactor")
    else "chore"
  let description :=
    if files.length = 1 then
      let fileName := stripLastExt (Analyzer.lastComponent (files.headD ""))
      "update " ++ (if fileName = "" then "file" else fileName)
    else if files.length ≤ 3 then
      String.intercalate ", " (files.map Analyzer.lastComponent)
    else
      "update " ++ Analyzer.lastComponent (files.headD "") ++ " and " ++
        toString (files.length - 1) ++ " other files"
  type ++ ": " ++ description

/-- Modelled from the claim's words (C7): the drafter is said to pick
the type by first match of: test-path signal, doc/markdown-path signal,
function/class-like keyword *combined with* an export-like keyword
(feat), fix/bug keyword (fix), otherwise refactor, with chore as the
default when none apply. The description cases are as claimed. -/
def claimDraft (files : List String) (diff : String) : String :=
  let type :=
    if files.any (fun f => strContains f "test" || strContains f "spec") then "test"
    else if files.any (fun f => endsW f ".md" || strContains f "doc") then "docs"
    else if (strContains diff "function" || strContains diff "class" ||
        strContains diff "const") && strContains diff "export" then "feat"
    else if strContains diff "fix" || strContains diff "bug" then "fix"
    else "refactor"
  let description :=
    if files.length = 1 then
      let fileName := stripLastExt (Analyzer.lastComponent (files.headD ""))
      "update " ++ (if fileName = "" then "file" else fileName)
    else if files.length ≤ 3 then
      String.intercalate ", " (files.map Analyzer.lastComponent)
    else
      "update " ++ Analyzer.lastComponent (files.headD "") ++ " and " ++
        toString (files.length - 1) ++ " other files"
  type ++ ": " ++ description

/-- First entry of an ordered rule list whose condition holds. -/
def firstRuleMatch : List (Bool × String) → String → String
  | [], dflt => dflt
  | (cond, t) :: rest, dflt => if cond then t else firstRuleMatch rest dflt

/-- The amended drafting algorithm, phrased as the spec phrases it (an
ordered first-match rule list): test signal; else doc signal; else, when
a function/class/const keyword occurs in the diff — feat if both
`export` and `new ` occur, fix if `fix` or `bug` occurs, refactor
otherwise; chore when no keyword rule applies. -/
def draftSpecAmended (files : List String) (diff : String) : String :=
  let kw := strContains diff "function" || strContains diff "class" ||
    strContains diff "const"
  let type := firstRuleMatch
    [(files.any (fun f => strContains f "test" || strContains f "spec"), "test"),
     (files.any (fun f => endsW f ".md" || strContains f "doc"), "docs"),
     (kw && (strContains diff "export" && strContains diff "new "), "feat"),
     (kw && (strContains diff "fix" || strContains diff "bug"), "fix"),
     (kw, "refactor")] "chore"
  let description :=
    if files.length = 1 then
      let fileName := stripLastExt (Analyzer.lastComponent (files.headD ""))
      "update " ++ (if fileName = "" then "file" else fileName)
    else if files.length ≤ 3 then
      String.intercalate ", " (files.map Analyzer.lastComponent)
    else
      "update " ++ Analyzer.lastComponent (files.headD "") ++ " and " ++
        toString (files.length - 1) ++ " other files"
  type ++ ": " ++ description

end McpFull

/-! ### `packages/cli/src/core/config.ts`: `ConfigLoader.validate` -/

namespace ConfigLoader

/-- A fragment of a runtime JS value, enough to express the dynamic
type checks of `validate` (`Array.isArray`, `typeof x === 'boolean'`,
truthiness). -/
inductive JsVal where
  | bool (b : Bool)
  | str (s : String)
  | arr (xs : List String)
  | num (n : Int)
deriving DecidableEq, Repr

/-- JS truthiness of a `JsVal`. -/
def jsTruthy : JsVal → Bool
  | JsVal.bool b => b
  | JsVal.str s => !(s = "")
  | JsVal.arr _ => true
  | JsVal.num n => !(n = 0)

/-- `Array.isArray`. -/
def jsIsArray : JsVal → Bool
  | JsVal.arr _ => true
  | _ => false

/-- A caller-supplied custom rule as it arrives from configuration: any
of its fields may be missing. -/
structure CustomRule where
  name : Option String
  pattern : Option RE
  severity : Option Severity

/-- The `output` section. -/
structure OutputConfig where
  dir : Option String
  format : Option String

/-- The `analysis` section; `enabled` is an untyped runtime value, and
`customRules` is the list handed to the `Analyzer` constructor. -/
structure AnalysisConfig where
  enabled : JsVal
  rules : List String
  customRules : List CustomRule

/-- The parts of `AiCommitConfig` that `validate` inspects (it reads
nothing else; in particular it never reads `analysis.customRules`). -/
structure AiCommitConfig where
  plugins : Option JsVal
  analysis : Option AnalysisConfig
  output : Option OutputConfig

/-- The result record of `validate`. -/
structure ValidationResult where
  valid : Bool
  errors : List String
deriving DecidableEq, Repr

/-- `ConfigLoader.validate`: checks only that `output.dir` is present
and truthy, that a truthy `plugins` is an array, and that
`analysis.enabled` is a boolean when `analysis` is present. -/
def validate (config : AiCommitConfig) : ValidationResult :=
  let errors : List String := []
  let errors := errors ++
    (if (match config.output with
         | none => true
         | some o => (match o.dir with | none => true | some d => d = ""))
     then ["Output directory not specified"] else [])
  let errors := errors ++
    (match config.plugins with
     | some v => if jsTruthy v && !jsIsArray v then ["Plugins must be an array"] else []
     | none => [])
  let errors := errors ++
    (match config.analysis with
     | some a => (match a.enabled with
         | JsVal.bool _ => []
         | _ => ["analysis.enabled must be a boolean"])
     | none => [])
  { valid := errors.isEmpty, errors := errors }

end ConfigLoader

/-! ### Concrete inputs used by the claim theorems -/

/-- Numeric rank of a severity level (`LOW < MEDIUM < HIGH`), used to
state level monotonicity. -/
def sevRank : Severity → ℕ
  | Severity.LOW => 0
  | Severity.MEDIUM => 1
  | Severity.HIGH => 2

/-- Forty changed source files: 23 under a `tests/` directory (each of
which is its own test-file variation, hence covered) and 17 under
`src/` with no tests, so that `N = 40` source files and `M = 17`
missing tests. -/
def c1Files : List String :=
  ["/tests/c1.ts", "/tests/c2.ts", "/tests/c3.ts", "/tests/c4.ts",
   "/tests/c5.ts", "/tests/c6.ts", "/tests/c7.ts", "/tests/c8.ts",
   "/tests/c9.ts", "/tests/c10.ts", "/tests/c11.ts", "/tests/c12.ts",
   "/tests/c13.ts", "/tests/c14.ts", "/tests/c15.ts", "/tests/c16.ts",
   "/tests/c17.ts", "/tests/c18.ts", "/tests/c19.ts", "/tests/c20.ts",
   "/tests/c21.ts", "/tests/c22.ts", "/tests/c23.ts",
   "src/m1.ts", "src/m2.ts", "src/m3.ts", "src/m4.ts", "src/m5.ts",
   "src/m6.ts", "src/m7.ts", "src/m8.ts", "src/m9.ts", "src/m10.ts",
   "src/m11.ts", "src/m12.ts", "src/m13.ts", "src/m14.ts", "src/m15.ts",
   "src/m16.ts", "src/m17.ts"]

/-- A diff whose only content is a TODO comment added inside
`node_modules` (an excluded path), with its `diff --git` header. -/
def c2Diff : String :=
  "diff --git a/node_modules/x.js b/node_modules/x.js\n+// TODO: hi"

/-- A diff consisting of one added line that also contains a `-`
character mid-line, followed by an interface declaration: the removal
pattern matches its tail although no line has a `-` prefix. -/
def c6Diff : String := "+ x - y; interface Z \x7b"

/-- A configuration whose custom-rule list contains a rule missing both
its `pattern` and its `severity`. -/
def c8Config : ConfigLoader.AiCommitConfig :=
  { plugins := some (ConfigLoader.JsVal.arr []),
    analysis := some
      { enabled := ConfigLoader.JsVal.bool true,
        rules := [],
        customRules := [{ name := some "my-rule", pattern := none, severity := none }] },
    output := some { dir := some "docs/commits", format := some "markdown" } }

/-- Replace the custom-rule list of a configuration (a no-op when the
`analysis` section is absent). -/
def setCustomRules (config : ConfigLoader.AiCommitConfig)
    (rules : List ConfigLoader.CustomRule) : ConfigLoader.AiCommitConfig :=
  { config with
    analysis := config.analysis.map (fun a => { a with customRules := rules }) }

/-- A well-formed custom rule whose category is `security` (not a
technical-debt category). -/
def securityCustomRule : AnalysisRule :=
  { name := "Custom Security Rule",
    pattern := RE.lit false "danger".data,
    severity := Severity.HIGH,
    category := "security",
    description := fun _ => "custom security match" }

/-! ## Theorems

First, correctness lemmas for the binary64 model: `rheFrac` rounds to
within a half, `expUp`/`expDown` compute the binade exponent, and the
composed operations are correctly rounded (relative error at most
`2^-53`), which is what the coverage-percentage analysis needs. -/

theorem rheFrac_close (x y : ℕ) (hy : 0 < y) :
    |(rheFrac x y : ℚ) - (x : ℚ) / y| ≤ 1 / 2 := by
  have hyQ : (0 : ℚ) < (y : ℚ) := by exact_mod_cast hy
  have h2 : (0 : ℚ) < 2 := by norm_num
  have hmod : (y * (x / y) + x % y : ℕ) = x := Nat.div_add_mod x y
  have hxQ : (x : ℚ) = (y : ℚ) * ((x / y : ℕ) : ℚ) + ((x % y : ℕ) : ℚ) := by
    exact_mod_cast hmod.symm
  have hdiv : (x : ℚ) / y = ((x / y : ℕ) : ℚ) + ((x % y : ℕ) : ℚ) / y := by
    rw [hxQ]; field_simp; ring
  have hrlt : ((x % y : ℕ) : ℚ) < y := by exact_mod_cast Nat.mod_lt x hy
  have hrnn : (0 : ℚ) ≤ ((x % y : ℕ) : ℚ) := by positivity
  have hr1 : ((x % y : ℕ) : ℚ) / y < 1 := by rw [div_lt_one hyQ]; exact hrlt
  have hrdnn : (0 : ℚ) ≤ ((x % y : ℕ) : ℚ) / y := by positivity
  unfold rheFrac
  split_ifs with h1 hup hev
  · -- 2 * (x % y) < y : round down, error (x % y) / y < 1/2
    have h1Q : 2 * ((x % y : ℕ) : ℚ) < y := by exact_mod_cast h1
    have hveq : (((x / y : ℕ) : ℚ)) - (x : ℚ) / y = -(((x % y : ℕ) : ℚ) / y) := by
      rw [hdiv]; ring
    rw [hveq, abs_neg, abs_of_nonneg hrdnn, div_le_div_iff₀ hyQ h2]
    linarith
  · -- y < 2 * (x % y) : round up, error 1 - (x % y)/y < 1/2
    have hupQ : (y : ℚ) < 2 * ((x % y : ℕ) : ℚ) := by exact_mod_cast hup
    have hveq : (((x / y + 1 : ℕ) : ℚ)) - (x : ℚ) / y = 1 - ((x % y : ℕ) : ℚ) / y := by
      rw [hdiv]; push_cast; ring
    rw [hveq, abs_of_nonneg (by linarith)]
    have : 1 / 2 < ((x % y : ℕ) : ℚ) / y := by
      rw [div_lt_div_iff₀ h2 hyQ]; linarith
    linarith
  · -- exact tie, even quotient: round down, error exactly 1/2
    have htieQ : 2 * ((x % y : ℕ) : ℚ) = y := by
      have : 2 * (x % y) = y := by omega
      exact_mod_cast this
    have hveq : (((x / y : ℕ) : ℚ)) - (x : ℚ) / y = -(((x % y : ℕ) : ℚ) / y) := by
      rw [hdiv]; ring
    rw [hveq, abs_neg, abs_of_nonneg hrdnn, div_le_div_iff₀ hyQ h2]
    linarith
  · -- exact tie, odd quotient: round up, error exactly 1/2
    have htieQ : 2 * ((x % y : ℕ) : ℚ) = y := by
      have : 2 * (x % y) = y := by omega
      exact_mod_cast this
    have hveq : (((x / y + 1 : ℕ) : ℚ)) - (x : ℚ) / y = 1 - ((x % y : ℕ) : ℚ) / y := by
      rw [hdiv]; push_cast; ring
    rw [hveq, abs_of_nonneg (by linarith)]
    have : ((x % y : ℕ) : ℚ) / y = 1 / 2 := by
      rw [div_eq_div_iff hyQ.ne' h2.ne']; linarith
    linarith

theorem expUp_spec : ∀ (fuel a b : ℕ), 0 < b → b ≤ a → a < 2 ^ fuel * b →
    2 ^ expUp fuel a b * b ≤ a ∧ a < 2 ^ (expUp fuel a b + 1) * b := by
  intro fuel
  induction fuel with
  | zero =>
      intro a b _ hba hlt
      rw [pow_zero, one_mul] at hlt
      omega
  | succ n ih =>
      intro a b hb hba hlt
      unfold expUp
      split_ifs with h
      · constructor
        · simpa using hba
        · simpa [pow_succ] using h
      · have hrec := ih a (2 * b) (by omega) (by omega)
          (by calc a < 2 ^ (n + 1) * b := hlt
                _ = 2 ^ n * (2 * b) := by ring)
        refine ⟨?_, ?_⟩
        · calc 2 ^ (expUp n a (2 * b) + 1) * b = 2 ^ expUp n a (2 * b) * (2 * b) := by ring
            _ ≤ a := hrec.1
        · calc a < 2 ^ (expUp n a (2 * b) + 1) * (2 * b) := hrec.2
            _ = 2 ^ (expUp n a (2 * b) + 1 + 1) * b := by ring

theorem expDown_spec : ∀ (fuel a b : ℕ), 0 < a → a < b → b ≤ 2 ^ fuel * a →
    1 ≤ expDown fuel a b ∧ b ≤ 2 ^ expDown fuel a b * a ∧
      2 ^ expDown fuel a b * a < 2 * b := by
  intro fuel
  induction fuel with
  | zero =>
      intro a b _ hab hle
      rw [pow_zero, one_mul] at hle
      omega
  | succ n ih =>
      intro a b ha hab hle
      unfold expDown
      split_ifs with h
      · exact ⟨le_refl 1, by simpa [pow_succ] using h, by simpa using hab⟩
      · have hrec := ih (2 * a) b (by omega) (by omega)
          (by calc b ≤ 2 ^ (n + 1) * a := hle
                _ = 2 ^ n * (2 * a) := by ring)
        refine ⟨by omega, ?_, ?_⟩
        · calc b ≤ 2 ^ expDown n (2 * a) b * (2 * a) := hrec.2.1
            _ = 2 ^ (expDown n (2 * a) b + 1) * a := by ring
        · calc 2 ^ (expDown n (2 * a) b + 1) * a = 2 ^ expDown n (2 * a) b * (2 * a) := by ring
            _ < 2 * b := hrec.2.2

theorem nat_div_floor (x y : ℕ) :
    ⌊(x : ℚ) / (y : ℚ)⌋ = (x / y : ℕ) := by
  have h := Rat.floor_intCast_div_natCast (x : ℤ) y
  have h1 : ((x : ℤ) : ℚ) = (x : ℚ) := by push_cast; ring
  have h2 : (x : ℤ) / (y : ℤ) = ((x / y : ℕ) : ℤ) := (Int.ofNat_div x y).symm
  rw [h1] at h
  rw [h, h2]

theorem normD_core (x y : ℕ) (e : ℤ) (hy : 0 < y)
    (hlo : (2 : ℚ) ^ (52 : ℕ) ≤ (x : ℚ) / y) (hhi : (x : ℚ) / y < 2 ^ (53 : ℕ)) :
    2 ^ 52 ≤ (normD (rheFrac x y) e).m ∧ (normD (rheFrac x y) e).m < 2 ^ 53 ∧
    |dval (normD (rheFrac x y) e) - ((x : ℚ) / y) * (2 : ℚ) ^ (e - 52)| ≤
      (2 : ℚ) ^ (e - 52) / 2 := by
  have hclose := rheFrac_close x y hy
  set s := (x : ℚ) / y with hs
  set m₀ := rheFrac x y with hm₀
  have habs := abs_le.mp hclose
  have hm_lo : 2 ^ 52 ≤ m₀ := by
    by_contra hcon
    push_neg at hcon
    have hc : (m₀ : ℚ) + 1 ≤ ((2 ^ 52 : ℕ) : ℚ) := by exact_mod_cast hcon
    have hc2 : ((2 ^ 52 : ℕ) : ℚ) = (2 : ℚ) ^ (52 : ℕ) := by push_cast; ring
    linarith [habs.1]
  have hm_hi : m₀ ≤ 2 ^ 53 := by
    by_contra hcon
    push_neg at hcon
    have hc : ((2 ^ 53 : ℕ) : ℚ) + 1 ≤ (m₀ : ℚ) := by exact_mod_cast hcon
    have hc2 : ((2 ^ 53 : ℕ) : ℚ) = (2 : ℚ) ^ (53 : ℕ) := by push_cast; ring
    linarith [habs.2]
  have hw : (0 : ℚ) < (2 : ℚ) ^ (e - 52) := by positivity
  have herr : |(m₀ : ℚ) * (2 : ℚ) ^ (e - 52) - s * (2 : ℚ) ^ (e - 52)| ≤
      (2 : ℚ) ^ (e - 52) / 2 := by
    have h1 : (m₀ : ℚ) * (2 : ℚ) ^ (e - 52) - s * (2 : ℚ) ^ (e - 52) =
        ((m₀ : ℚ) - s) * (2 : ℚ) ^ (e - 52) := by ring
    rw [h1, abs_mul, abs_of_nonneg hw.le]
    calc |(m₀ : ℚ) - s| * (2 : ℚ) ^ (e - 52) ≤ (1 / 2) * (2 : ℚ) ^ (e - 52) := by
          exact mul_le_mul_of_nonneg_right hclose hw.le
      _ = (2 : ℚ) ^ (e - 52) / 2 := by ring
  unfold normD
  split_ifs with hM
  · refine ⟨le_refl _, by norm_num, ?_⟩
    have hval : dval ⟨2 ^ 52, e + 1⟩ = (m₀ : ℚ) * (2 : ℚ) ^ (e - 52) := by
      unfold dval
      simp only [hM]
      have hee : e + 1 - 52 = (e - 52) + 1 := by ring
      rw [hee, zpow_add₀ (by norm_num : (2:ℚ) ≠ 0) (e - 52) 1]
      push_cast
      ring
    rw [hval]
    exact herr
  · have hlt : m₀ < 2 ^ 53 := lt_of_le_of_ne hm_hi hM
    refine ⟨hm_lo, hlt, ?_⟩
    have hval : dval ⟨m₀, e⟩ = (m₀ : ℚ) * (2 : ℚ) ^ (e - 52) := rfl
    rw [hval]
    exact herr

theorem ddivExp_spec (a b : ℕ) (ha : 0 < a) (hb : 0 < b) :
    (2 : ℚ) ^ ddivExp a b ≤ (a : ℚ) / b ∧ (a : ℚ) / b < 2 ^ (ddivExp a b + 1) := by
  have haQ : (0 : ℚ) < (a : ℚ) := by exact_mod_cast ha
  have hbQ : (0 : ℚ) < (b : ℚ) := by exact_mod_cast hb
  unfold ddivExp
  split_ifs with h
  · -- b ≤ a : exponent expUp a a b ≥ 0
    obtain ⟨h1, h2⟩ := expUp_spec a a b hb h
      (by calc a < 2 ^ a := Nat.lt_two_pow a
            _ = 2 ^ a * 1 := by ring
            _ ≤ 2 ^ a * b := by exact Nat.mul_le_mul_left _ hb)
    set k := expUp a a b
    constructor
    · rw [zpow_natCast, le_div_iff₀ hbQ]
      exact_mod_cast h1
    · have : (ddivExp a b + 1 : ℤ) = ((k + 1 : ℕ) : ℤ) := by simp [ddivExp, h]
      rw [show ((k : ℤ) + 1) = ((k + 1 : ℕ) : ℤ) by push_cast; ring,
        zpow_natCast, div_lt_iff₀ hbQ]
      exact_mod_cast h2
  · -- a < b : exponent -(expDown b a b)
    push_neg at h
    obtain ⟨hk1, hk2, hk3⟩ := expDown_spec b a b ha h
      (by calc b ≤ 2 ^ b := (Nat.lt_two_pow b).le
            _ = 2 ^ b * 1 := by ring
            _ ≤ 2 ^ b * a := by exact Nat.mul_le_mul_left _ ha)
    set k := expDown b a b
    have hkQ1 : (b : ℚ) ≤ 2 ^ k * a := by exact_mod_cast hk2
    have hkQ2 : (2 : ℚ) ^ k * a < 2 * b := by exact_mod_cast hk3
    have hpow : (0 : ℚ) < (2 : ℚ) ^ k := by positivity
    constructor
    · rw [show (-(k : ℤ)) = (0 : ℤ) - (k : ℤ) by ring,
        zpow_sub₀ (by norm_num : (2:ℚ) ≠ 0), zpow_zero, zpow_natCast,
        div_le_div_iff₀ hpow hbQ]
      calc (1:ℚ) * (b:ℚ) = (b:ℚ) := one_mul (b:ℚ)
        _ ≤ 2 ^ k * a := hkQ1
        _ = a * 2 ^ k := mul_comm _ _
    · rw [show (-(k : ℤ) + 1) = (1 : ℤ) - (k : ℤ) by ring,
        zpow_sub₀ (by norm_num : (2:ℚ) ≠ 0), zpow_one, zpow_natCast,
        div_lt_div_iff₀ hbQ hpow]
      calc (a:ℚ) * 2 ^ k = 2 ^ k * a := mul_comm _ _
        _ < 2 * b := hkQ2

theorem ddivN_spec (a b : ℕ) (ha : 0 < a) (hb : 0 < b) :
    2 ^ 52 ≤ (ddivN a b).m ∧ (ddivN a b).m < 2 ^ 53 ∧
    |dval (ddivN a b) - (a : ℚ) / b| ≤ (a : ℚ) / b * (2 : ℚ) ^ (-53 : ℤ) := by
  have h2ne : (2 : ℚ) ≠ 0 := by norm_num
  have haQ : (0 : ℚ) < (a : ℚ) := by exact_mod_cast ha
  have hbQ : (0 : ℚ) < (b : ℚ) := by exact_mod_cast hb
  obtain ⟨he1, he2⟩ := ddivExp_spec a b ha hb
  set e := ddivExp a b with hedef
  have hmant : ∃ x y : ℕ, 0 < y ∧ ddivMant a b e = rheFrac x y ∧
      (x : ℚ) / y = ((a : ℚ) / b) * (2 : ℚ) ^ ((52 : ℤ) - e) := by
    unfold ddivMant
    split_ifs with hle
    · refine ⟨a * 2 ^ (52 - e).toNat, b, hb, rfl, ?_⟩
      have ht : (2 : ℚ) ^ ((52 : ℤ) - e) = (2 : ℚ) ^ ((52 - e).toNat : ℕ) := by
        conv_lhs => rw [← Int.toNat_of_nonneg hle]
        rw [zpow_natCast]
      rw [ht]
      push_cast
      ring
    · push_neg at hle
      refine ⟨a, b * 2 ^ (e - 52).toNat, by positivity, rfl, ?_⟩
      rw [show ((52 : ℤ) - e) = -(((e - 52).toNat : ℕ) : ℤ) by omega, zpow_neg, zpow_natCast]
      push_cast
      field_simp
  obtain ⟨x, y, hy, hm, hxy⟩ := hmant
  have hw : (0 : ℚ) < (2 : ℚ) ^ ((52 : ℤ) - e) := by positivity
  have hz : (2 : ℚ) ^ e * (2 : ℚ) ^ ((52 : ℤ) - e) = (2 : ℚ) ^ (52 : ℕ) := by
    rw [← zpow_add₀ h2ne, show e + ((52 : ℤ) - e) = (((52 : ℕ) : ℤ)) by push_cast; ring,
      zpow_natCast]
  have hz2 : (2 : ℚ) ^ (e + 1) * (2 : ℚ) ^ ((52 : ℤ) - e) = (2 : ℚ) ^ (53 : ℕ) := by
    rw [← zpow_add₀ h2ne, show (e + 1) + ((52 : ℤ) - e) = (((53 : ℕ) : ℤ)) by push_cast; ring,
      zpow_natCast]
  have hlo : (2 : ℚ) ^ (52 : ℕ) ≤ (x : ℚ) / y := by
    rw [hxy, ← hz]
    exact mul_le_mul_of_nonneg_right he1 hw.le
  have hhi : (x : ℚ) / y < 2 ^ (53 : ℕ) := by
    rw [hxy, ← hz2]
    exact mul_lt_mul_of_pos_right he2 hw
  have hcore := normD_core x y e hy hlo hhi
  have hdd : ddivN a b = normD (rheFrac x y) e := by
    unfold ddivN
    rw [if_neg (by omega : ¬ a = 0), hm]
  rw [hdd]
  refine ⟨hcore.1, hcore.2.1, ?_⟩
  have herr := hcore.2.2
  have hback : ((x : ℚ) / y) * (2 : ℚ) ^ (e - 52) = (a : ℚ) / b := by
    rw [hxy, mul_assoc, ← zpow_add₀ h2ne,
      show ((52 : ℤ) - e) + (e - 52) = 0 by ring, zpow_zero, mul_one]
  rw [hback] at herr
  calc |dval (normD (rheFrac x y) e) - (a : ℚ) / b| ≤ (2 : ℚ) ^ (e - 52) / 2 := herr
    _ = (2 : ℚ) ^ e * (2 : ℚ) ^ (-53 : ℤ) := by
        rw [div_eq_mul_inv, show ((2:ℚ))⁻¹ = (2:ℚ) ^ (-1 : ℤ) by norm_num,
          ← zpow_add₀ h2ne, ← zpow_add₀ h2ne,
          show (e - 52) + (-1 : ℤ) = e + (-53 : ℤ) by ring]
    _ ≤ ((a : ℚ) / b) * (2 : ℚ) ^ (-53 : ℤ) := by
        exact mul_le_mul_of_nonneg_right he1 (by positivity)

theorem dval_dbl100 : dval dbl100 = 100 := by
  unfold dval dbl100
  rw [show ((6 : ℤ) - 52) = -(((46 : ℕ) : ℤ)) by norm_num, zpow_neg, zpow_natCast]
  push_cast
  field_simp
  norm_num

theorem dbl100_m_bounds : 2 ^ 52 ≤ dbl100.m ∧ dbl100.m < 2 ^ 53 := by
  unfold dbl100
  norm_num

theorem dmulN_spec (x y : Dbl) (hx1 : 2 ^ 52 ≤ x.m) (hx2 : x.m < 2 ^ 53)
    (hy1 : 2 ^ 52 ≤ y.m) (hy2 : y.m < 2 ^ 53) :
    2 ^ 52 ≤ (dmulN x y).m ∧ (dmulN x y).m < 2 ^ 53 ∧
    |dval (dmulN x y) - dval x * dval y| ≤ dval x * dval y * (2 : ℚ) ^ (-53 : ℤ) := by
  have h2ne : (2 : ℚ) ≠ 0 := by norm_num
  have hx0 : 0 < x.m := lt_of_lt_of_le (by positivity) hx1
  have hy0 : 0 < y.m := lt_of_lt_of_le (by positivity) hy1
  have hguard : ¬(x.m = 0 ∨ y.m = 0) := by omega
  have hp_lo : 2 ^ 104 ≤ x.m * y.m := by
    calc (2 : ℕ) ^ 104 = 2 ^ 52 * 2 ^ 52 := by norm_num
      _ ≤ x.m * y.m := Nat.mul_le_mul hx1 hy1
  have hp_hi : x.m * y.m < 2 ^ 106 := by
    calc x.m * y.m < 2 ^ 53 * 2 ^ 53 := by
          exact Nat.mul_lt_mul_of_lt_of_lt hx2 hy2
      _ = 2 ^ 106 := by norm_num
  have hval : dval x * dval y = ((x.m * y.m : ℕ) : ℚ) * (2 : ℚ) ^ (x.e + y.e - 104) := by
    unfold dval
    calc ((x.m : ℚ) * 2 ^ (x.e - 52)) * ((y.m : ℚ) * 2 ^ (y.e - 52)) =
          ((x.m : ℚ) * (y.m : ℚ)) * ((2:ℚ) ^ (x.e - 52) * (2:ℚ) ^ (y.e - 52)) := by ring
      _ = ((x.m : ℚ) * (y.m : ℚ)) * (2:ℚ) ^ ((x.e - 52) + (y.e - 52)) := by
          rw [zpow_add₀ h2ne]
      _ = ((x.m * y.m : ℕ) : ℚ) * (2 : ℚ) ^ (x.e + y.e - 104) := by
          push_cast
          rw [show (x.e - 52) + (y.e - 52) = x.e + y.e - 104 by ring]
  have hvpos : (0:ℚ) < ((x.m * y.m : ℕ) : ℚ) := by
    have : 0 < x.m * y.m := Nat.mul_pos hx0 hy0
    exact_mod_cast this
  unfold dmulN
  rw [if_neg hguard]
  split_ifs with hbr
  · -- x.m * y.m < 2^105: scale by 2^52, exponent x.e + y.e
    have hlo : (2 : ℚ) ^ (52 : ℕ) ≤ ((x.m * y.m : ℕ) : ℚ) / ((2 ^ 52 : ℕ) : ℚ) := by
      rw [le_div_iff₀ (by positivity)]
      have hcast : ((2 ^ 104 : ℕ) : ℚ) ≤ ((x.m * y.m : ℕ) : ℚ) := by exact_mod_cast hp_lo
      calc (2:ℚ) ^ (52:ℕ) * ((2 ^ 52 : ℕ) : ℚ) = ((2 ^ 104 : ℕ) : ℚ) := by push_cast; ring
        _ ≤ _ := hcast
    have hhi : ((x.m * y.m : ℕ) : ℚ) / ((2 ^ 52 : ℕ) : ℚ) < 2 ^ (53 : ℕ) := by
      rw [div_lt_iff₀ (by positivity)]
      have hcast : ((x.m * y.m : ℕ) : ℚ) < ((2 ^ 105 : ℕ) : ℚ) := by exact_mod_cast hbr
      calc ((x.m * y.m : ℕ) : ℚ) < ((2 ^ 105 : ℕ) : ℚ) := hcast
        _ = (2:ℚ) ^ (53:ℕ) * ((2 ^ 52 : ℕ) : ℚ) := by push_cast; ring
    have hcore := normD_core (x.m * y.m) (2 ^ 52) (x.e + y.e) (by positivity) hlo hhi
    refine ⟨hcore.1, hcore.2.1, ?_⟩
    have herr := hcore.2.2
    have hs : (((x.m * y.m : ℕ) : ℚ) / ((2 ^ 52 : ℕ) : ℚ)) * (2 : ℚ) ^ ((x.e + y.e) - 52) =
        dval x * dval y := by
      rw [hval, div_mul_eq_mul_div, div_eq_iff (by positivity : ((2 ^ 52 : ℕ) : ℚ) ≠ 0),
        show ((2 ^ 52 : ℕ) : ℚ) = (2:ℚ) ^ ((52:ℕ) : ℤ) by rw [zpow_natCast]; push_cast; ring,
        mul_assoc, ← zpow_add₀ h2ne,
        show (x.e + y.e - 104) + ((52:ℕ) : ℤ) = x.e + y.e - 52 by push_cast; ring]
    rw [hs] at herr
    calc |dval (normD (rheFrac (x.m * y.m) (2 ^ 52)) (x.e + y.e)) - dval x * dval y| ≤
          (2 : ℚ) ^ ((x.e + y.e) - 52) / 2 := herr
      _ = (2 : ℚ) ^ (x.e + y.e) * (2 : ℚ) ^ (-53 : ℤ) := by
          rw [div_eq_mul_inv, show ((2:ℚ))⁻¹ = (2:ℚ) ^ (-1 : ℤ) by norm_num,
            ← zpow_add₀ h2ne, ← zpow_add₀ h2ne,
            show ((x.e + y.e) - 52) + (-1 : ℤ) = (x.e + y.e) + (-53 : ℤ) by ring]
      _ ≤ (dval x * dval y) * (2 : ℚ) ^ (-53 : ℤ) := by
          refine mul_le_mul_of_nonneg_right ?_ (by positivity)
          rw [hval]
          calc (2:ℚ) ^ (x.e + y.e) = ((2 ^ 104 : ℕ) : ℚ) * (2:ℚ) ^ (x.e + y.e - 104) := by
                rw [show ((2 ^ 104 : ℕ) : ℚ) = (2:ℚ) ^ ((104:ℕ) : ℤ) by rw [zpow_natCast]; push_cast; ring,
                  ← zpow_add₀ h2ne, show ((104:ℕ) : ℤ) + (x.e + y.e - 104) = x.e + y.e by push_cast; ring]
            _ ≤ ((x.m * y.m : ℕ) : ℚ) * (2:ℚ) ^ (x.e + y.e - 104) := by
                refine mul_le_mul_of_nonneg_right ?_ (by positivity)
                exact_mod_cast hp_lo
  · -- 2^105 ≤ x.m * y.m: scale by 2^53, exponent x.e + y.e + 1
    push_neg at hbr
    have hlo : (2 : ℚ) ^ (52 : ℕ) ≤ ((x.m * y.m : ℕ) : ℚ) / ((2 ^ 53 : ℕ) : ℚ) := by
      rw [le_div_iff₀ (by positivity)]
      have hcast : ((2 ^ 105 : ℕ) : ℚ) ≤ ((x.m * y.m : ℕ) : ℚ) := by exact_mod_cast hbr
      calc (2:ℚ) ^ (52:ℕ) * ((2 ^ 53 : ℕ) : ℚ) = ((2 ^ 105 : ℕ) : ℚ) := by push_cast; ring
        _ ≤ _ := hcast
    have hhi : ((x.m * y.m : ℕ) : ℚ) / ((2 ^ 53 : ℕ) : ℚ) < 2 ^ (53 : ℕ) := by
      rw [div_lt_iff₀ (by positivity)]
      have hcast : ((x.m * y.m : ℕ) : ℚ) < ((2 ^ 106 : ℕ) : ℚ) := by exact_mod_cast hp_hi
      calc ((x.m * y.m : ℕ) : ℚ) < ((2 ^ 106 : ℕ) : ℚ) := hcast
        _ = (2:ℚ) ^ (53:ℕ) * ((2 ^ 53 : ℕ) : ℚ) := by push_cast; ring
    have hcore := normD_core (x.m * y.m) (2 ^ 53) (x.e + y.e + 1) (by positivity) hlo hhi
    refine ⟨hcore.1, hcore.2.1, ?_⟩
    have herr := hcore.2.2
    have hs : (((x.m * y.m : ℕ) : ℚ) / ((2 ^ 53 : ℕ) : ℚ)) * (2 : ℚ) ^ ((x.e + y.e + 1) - 52) =
        dval x * dval y := by
      rw [hval, div_mul_eq_mul_div, div_eq_iff (by positivity : ((2 ^ 53 : ℕ) : ℚ) ≠ 0),
        show ((2 ^ 53 : ℕ) : ℚ) = (2:ℚ) ^ ((53:ℕ) : ℤ) by rw [zpow_natCast]; push_cast; ring,
        mul_assoc, ← zpow_add₀ h2ne,
        show (x.e + y.e - 104) + ((53:ℕ) : ℤ) = (x.e + y.e + 1) - 52 by push_cast; ring]
    rw [hs] at herr
    calc |dval (normD (rheFrac (x.m * y.m) (2 ^ 53)) (x.e + y.e + 1)) - dval x * dval y| ≤
          (2 : ℚ) ^ ((x.e + y.e + 1) - 52) / 2 := herr
      _ = (2 : ℚ) ^ (x.e + y.e + 1) * (2 : ℚ) ^ (-53 : ℤ) := by
          rw [div_eq_mul_inv, show ((2:ℚ))⁻¹ = (2:ℚ) ^ (-1 : ℤ) by norm_num,
            ← zpow_add₀ h2ne, ← zpow_add₀ h2ne,
            show ((x.e + y.e + 1) - 52) + (-1 : ℤ) = (x.e + y.e + 1) + (-53 : ℤ) by ring]
      _ ≤ (dval x * dval y) * (2 : ℚ) ^ (-53 : ℤ) := by
          refine mul_le_mul_of_nonneg_right ?_ (by positivity)
          rw [hval]
          calc (2:ℚ) ^ (x.e + y.e + 1) = ((2 ^ 105 : ℕ) : ℚ) * (2:ℚ) ^ (x.e + y.e - 104) := by
                rw [show ((2 ^ 105 : ℕ) : ℚ) = (2:ℚ) ^ ((105:ℕ) : ℤ) by rw [zpow_natCast]; push_cast; ring,
                  ← zpow_add₀ h2ne,
                  show ((105:ℕ) : ℤ) + (x.e + y.e - 104) = x.e + y.e + 1 by push_cast; ring]
            _ ≤ ((x.m * y.m : ℕ) : ℚ) * (2:ℚ) ^ (x.e + y.e - 104) := by
                refine mul_le_mul_of_nonneg_right ?_ (by positivity)
                exact_mod_cast hbr

theorem floor_nat_add_half (n : ℕ) : ⌊(n : ℚ) + 1 / 2⌋ = (n : ℤ) := by
  rw [Int.floor_eq_iff]
  constructor
  · push_cast; linarith
  · push_cast; linarith

theorem jsRoundD_spec (x : Dbl) : jsRoundD x = ⌊dval x + 1 / 2⌋ := by
  unfold jsRoundD dval
  split_ifs with h
  · have ht : (x.e - 52 : ℤ) = (((x.e - 52).toNat : ℕ) : ℤ) :=
      (Int.toNat_of_nonneg (by omega)).symm
    have hv : (x.m : ℚ) * (2 : ℚ) ^ (x.e - 52) = ((x.m * 2 ^ (x.e - 52).toNat : ℕ) : ℚ) := by
      conv_lhs => rw [ht]
      rw [zpow_natCast]
      push_cast
      ring
    rw [hv, floor_nat_add_half]
    push_cast
    ring
  · have h1 : (0 : ℤ) ≤ 52 - x.e := by omega
    have h53 : (53 - x.e).toNat = (52 - x.e).toNat + 1 := by omega
    rw [h53]
    have hval : (x.m : ℚ) * (2 : ℚ) ^ (x.e - 52) + 1 / 2 =
        ((2 * x.m + 2 ^ (52 - x.e).toNat : ℕ) : ℚ) /
          ((2 ^ ((52 - x.e).toNat + 1) : ℕ) : ℚ) := by
      have he : (x.e - 52 : ℤ) = -(((52 - x.e).toNat : ℕ) : ℤ) := by omega
      rw [he, zpow_neg, zpow_natCast]
      push_cast
      field_simp
      ring
    rw [hval, nat_div_floor]

theorem round_transfer (a v δ : ℚ) (herr : |a - v| < δ)
    (hhalf : ∀ j : ℤ, δ ≤ |v - ((j : ℚ) + 1 / 2)|) : ⌊a + 1 / 2⌋ = ⌊v + 1 / 2⌋ := by
  set n := ⌊v + 1 / 2⌋ with hn
  have hfl : (n : ℚ) ≤ v + 1 / 2 := Int.floor_le (v + 1 / 2)
  have hlt : v + 1 / 2 < (n : ℚ) + 1 := Int.lt_floor_add_one (v + 1 / 2)
  have hv1 : (n : ℚ) - 1 / 2 ≤ v := by linarith
  have hv2 : v < (n : ℚ) + 1 / 2 := by linarith
  have h1 := hhalf (n - 1)
  have h2 := hhalf n
  have hc : ((n - 1 : ℤ) : ℚ) + 1 / 2 = (n : ℚ) - 1 / 2 := by push_cast; ring
  rw [hc] at h1
  rw [abs_of_nonneg (by linarith)] at h1
  rw [abs_of_nonpos (by linarith)] at h2
  have habs := abs_lt.mp herr
  rw [Int.floor_eq_iff]
  constructor
  · linarith [habs.1]
  · linarith [habs.2]

theorem half_dist (N M : ℕ) (h0 : 0 < N) (hMN : M ≤ N)
    (hmod : (200 * (N - M)) % (2 * N) ≠ N) :
    ∀ j : ℤ, (1 : ℚ) / (2 * N) ≤ |(100 * ((N : ℚ) - M)) / N - ((j : ℚ) + 1 / 2)| := by
  intro j
  have hNQ : (0 : ℚ) < (N : ℚ) := by exact_mod_cast h0
  have hNZ : (0 : ℤ) < (N : ℤ) := by exact_mod_cast h0
  set a := N - M with hadef
  have hcast : (N : ℚ) - M = (a : ℚ) := by
    rw [hadef]
    exact (Nat.cast_sub hMN).symm
  set t : ℤ := 200 * (a : ℤ) - (N : ℤ) * (2 * j + 1) with htdef
  have hdiff : (100 * ((N : ℚ) - M)) / N - ((j : ℚ) + 1 / 2) = (t : ℚ) / (2 * N) := by
    rw [hcast, htdef]
    push_cast
    field_simp
    ring
  have ht0 : t ≠ 0 := by
    intro hteq
    rw [htdef, sub_eq_zero] at hteq
    have hj : 0 ≤ j := by
      by_contra hneg
      push_neg at hneg
      have haZ : (0 : ℤ) ≤ (a : ℤ) := by positivity
      nlinarith
    obtain ⟨j', rfl⟩ := Int.eq_ofNat_of_zero_le hj
    have hNat : 200 * a = N * (2 * j' + 1) := by exact_mod_cast hteq
    apply hmod
    rw [hNat, show N * (2 * j' + 1) = N + 2 * N * j' by ring,
      show N + 2 * N * j' = N + (2 * N) * j' by ring, Nat.add_mul_mod_self_left]
    exact Nat.mod_eq_of_lt (by omega)
  have htabs : (1 : ℤ) ≤ |t| := by
    rcases lt_or_gt_of_ne ht0 with h | h
    · rw [abs_of_neg h]; omega
    · rw [abs_of_pos h]; omega
  rw [hdiff, abs_div, abs_of_pos (by positivity : (0 : ℚ) < 2 * (N : ℚ))]
  have hnum : (1 : ℚ) ≤ |(t : ℚ)| := by
    rw [← Int.cast_abs]
    exact_mod_cast htabs
  gcongr

theorem covPct_eq (N M : ℕ) (h0 : 0 < N) (hM : M ≤ N) (hN : N < 2 ^ 32)
    (hmod : (200 * (N - M)) % (2 * N) ≠ N) :
    jsRoundD (dmulN (ddivN (N - M) N) dbl100) = round ((100 * ((N : ℚ) - M)) / N) := by
  have h2ne : (2 : ℚ) ≠ 0 := by norm_num
  have hNQ : (0 : ℚ) < (N : ℚ) := by exact_mod_cast h0
  rw [round_eq, jsRoundD_spec]
  rcases Nat.eq_or_lt_of_le hM with hMN | hMN
  · -- M = N: the quotient is exactly zero on both sides
    have hz : N - M = 0 := by omega
    rw [hz]
    have hdd : ddivN 0 N = ⟨0, 0⟩ := by unfold ddivN; simp
    have hdm : dmulN ⟨0, 0⟩ dbl100 = ⟨0, 0⟩ := by
      unfold dmulN; simp
    rw [hdd, hdm]
    have hdv : dval ⟨0, 0⟩ = 0 := by unfold dval; push_cast; ring
    have hMQ : (M : ℚ) = (N : ℚ) := by exact_mod_cast hMN
    rw [hdv, hMQ, sub_self, mul_zero, zero_div]
  · set a := N - M with hadef
    have ha : 0 < a := by omega
    have haQpN : (0 : ℚ) < (a : ℚ) := by exact_mod_cast ha
    obtain ⟨hd1, hd2, hd3⟩ := ddivN_spec a N ha h0
    obtain ⟨hm1, hm2, hm3⟩ :=
      dmulN_spec (ddivN a N) dbl100 hd1 hd2 dbl100_m_bounds.1 dbl100_m_bounds.2
    rw [dval_dbl100] at hm3
    set q : ℚ := (a : ℚ) / N with hqdef
    set d1 := dval (ddivN a N) with hd1def
    set d2 := dval (dmulN (ddivN a N) dbl100) with hd2def
    have hqpos : 0 < q := by rw [hqdef]; positivity
    have hq1 : q ≤ 1 := by
      rw [hqdef, div_le_one hNQ]
      exact_mod_cast (by omega : a ≤ N)
    have hppos : (0 : ℚ) < (2 : ℚ) ^ (-53 : ℤ) := by positivity
    have hple : (2 : ℚ) ^ (-53 : ℤ) ≤ 1 := by
      rw [show (-53 : ℤ) = -((53 : ℕ) : ℤ) by norm_num, zpow_neg, zpow_natCast]
      rw [inv_le_one_iff₀]
      right
      norm_num
    have habs1 := abs_le.mp hd3
    have hd1le : d1 ≤ 2 * q := by nlinarith
    have herr : |d2 - 100 * q| ≤ 300 * (2 : ℚ) ^ (-53 : ℤ) := by
      have t2 : |d1 * 100 - 100 * q| = 100 * |d1 - q| := by
        rw [show d1 * 100 - 100 * q = 100 * (d1 - q) by ring, abs_mul,
          abs_of_nonneg (by norm_num : (0 : ℚ) ≤ 100)]
      calc |d2 - 100 * q| ≤ |d2 - d1 * 100| + |d1 * 100 - 100 * q| := abs_sub_le _ _ _
        _ ≤ d1 * 100 * (2 : ℚ) ^ (-53 : ℤ) + 100 * (q * (2 : ℚ) ^ (-53 : ℤ)) := by
            rw [t2]
            exact add_le_add hm3 (mul_le_mul_of_nonneg_left hd3 (by norm_num))
        _ ≤ 300 * (2 : ℚ) ^ (-53 : ℤ) := by nlinarith
    have hstrict : 300 * (2 : ℚ) ^ (-53 : ℤ) < 1 / (2 * (N : ℚ)) := by
      rw [show (-53 : ℤ) = -((53 : ℕ) : ℤ) by norm_num, zpow_neg, zpow_natCast,
        ← div_eq_mul_inv, div_lt_div_iff₀ (by positivity) (by positivity)]
      have hNlt : (N : ℚ) < 2 ^ (32 : ℕ) := by exact_mod_cast hN
      nlinarith
    have hv : (100 * ((N : ℚ) - M)) / N = 100 * q := by
      have hcast : (N : ℚ) - M = (a : ℚ) := by
        rw [hadef]
        exact (Nat.cast_sub hM).symm
      rw [hcast, hqdef, mul_div_assoc]
    rw [hv]
    apply round_transfer d2 (100 * q) (1 / (2 * (N : ℚ)))
    · exact lt_of_le_of_lt herr hstrict
    · intro j
      have hh := half_dist N M h0 hM hmod j
      rw [hv] at hh
      exact hh

theorem checkTestCoverage_pct (files : List String) :
    (Analyzer.checkTestCoverage files).coveragePercentage =
      (if 0 < (Analyzer.sourceFilesIn files).length then
        jsRoundD (dmulN (ddivN ((Analyzer.sourceFilesIn files).length -
          (Analyzer.missingTestsIn files).length) (Analyzer.sourceFilesIn files).length)
          dbl100)
      else 100) := rfl

theorem checkTestCoverage_missing (files : List String) :
    (Analyzer.checkTestCoverage files).missingTests = Analyzer.missingTestsIn files := rfl

/-- C1 (counterexample): on forty source files with seventeen missing
tests the exact percentage is `57.5`, which rounds to `58`; the
analyzer's double-precision evaluation of `((40-17)/40)*100` falls just
below `57.5` and `Math.round` returns `57`. -/
theorem coverage_round_counterexample :
    (Analyzer.sourceFilesIn (Analyzer.filterFiles c1Files)).length = 40 ∧
    (Analyzer.analyze [] "" c1Files).testCoverage.missingTests.length = 17 ∧
    (Analyzer.analyze [] "" c1Files).testCoverage.coveragePercentage = 57 ∧
    round ((100 * ((40 : ℚ) - 17)) / 40) = 58 := by
  refine ⟨by decide, by decide, by decide, ?_⟩
  rw [round_eq]
  norm_num

/-- C1 (amended): with `N` the number of source files after exclusion
filtering and `M` the number of files missing tests (`M ≤ N` always),
`coveragePercentage` is `100` when `N = 0`, and otherwise equals
`round(100*(N-M)/N)` provided `N < 2^32` (a JS array-length bound) and
`100*(N-M)/N` is not exactly a half-integer (the condition
`200*(N-M) mod 2*N ≠ N`); at half-integers the binary64 evaluation of
`((N-M)/N)*100` decides the rounding and can land one below the exact
value, as the counterexample shows. -/
theorem coverage_percentage_amended (customRules : List AnalysisRule) (diff : String)
    (files : List String) (N M : ℕ)
    (hN : N = (Analyzer.sourceFilesIn (Analyzer.filterFiles files)).length)
    (hM : M = (Analyzer.analyze customRules diff files).testCoverage.missingTests.length) :
    (N = 0 → (Analyzer.analyze customRules diff files).testCoverage.coveragePercentage = 100) ∧
    (0 < N → N < 2 ^ 32 → (200 * (N - M)) % (2 * N) ≠ N →
      (Analyzer.analyze customRules diff files).testCoverage.coveragePercentage =
        round ((100 * ((N : ℚ) - (M : ℚ))) / (N : ℚ))) := by
  have htc : (Analyzer.analyze customRules diff files).testCoverage =
      Analyzer.checkTestCoverage (Analyzer.filterFiles files) := rfl
  have hMdef : M = (Analyzer.missingTestsIn (Analyzer.filterFiles files)).length := by
    rw [hM, htc, checkTestCoverage_missing]
  have hMN : M ≤ N := by
    rw [hMdef, hN]
    exact List.length_filter_le _ _
  constructor
  · intro h0
    rw [htc, checkTestCoverage_pct, if_neg (by omega)]
  · intro h0 h32 hmod
    rw [htc, checkTestCoverage_pct, if_pos (by omega), ← hN, ← hMdef]
    exact covPct_eq N M h0 hMN h32 hmod

/-- Witness for C1 (amended) at a single uncovered source file:
`N = 1`, `M = 1`, and the percentage is `round(0) = 0`. -/
theorem coverage_percentage_amended_witness :
    (Analyzer.analyze [] "" ["src/app.ts"]).testCoverage.coveragePercentage =
      round ((100 * (((1 : ℕ) : ℚ) - ((1 : ℕ) : ℚ))) / ((1 : ℕ) : ℚ)) :=
  (coverage_percentage_amended [] "" ["src/app.ts"] 1 1 (by decide) (by decide)).2
    (by decide) (by decide) (by decide)

theorem not_mem_filterFiles (files : List String) (f : String)
    (hf : matchesExcluded f = true) : f ∉ Analyzer.filterFiles files := by
  intro hmem
  have hp := List.of_mem_filter hmem
  rw [hf] at hp
  exact Bool.noConfusion hp

theorem assessRisks_affected_sub (diff : String) (files : List String) (r : RiskItem)
    (hr : r ∈ Analyzer.assessRisks diff files) (afs : List String)
    (ha : r.affectedFiles = some afs) : ∀ g ∈ afs, g ∈ files := by
  unfold Analyzer.assessRisks at hr
  rcases List.mem_append.mp hr with h | h
  · rcases List.mem_append.mp h with h1 | h2
    · obtain ⟨entry, _, hsome⟩ := List.mem_filterMap.mp h1
      by_cases hc : (files.filter (fun file => entry.2.patternTest file)).isEmpty
      · rw [if_pos hc] at hsome
        exact absurd hsome (by simp)
      · rw [if_neg hc] at hsome
        have hreq := Option.some.inj hsome
        rw [← hreq] at ha
        have hafs := Option.some.inj ha
        rw [← hafs]
        intro g hg
        exact List.mem_of_mem_filter hg
    · by_cases hb : Analyzer.hasBreakingChanges diff
      · rw [if_pos hb] at h2
        have : r = Analyzer.breakingChangeRisk := List.mem_singleton.mp h2
        rw [this] at ha
        exact absurd ha (by simp [Analyzer.breakingChangeRisk])
      · rw [if_neg hb] at h2
        exact absurd h2 (List.not_mem_nil r)
  · by_cases hd : Analyzer.hasDataStructureChanges diff
    · rw [if_pos hd] at h
      have : r = Analyzer.dataStructureChangeRisk := List.mem_singleton.mp h
      rw [this] at ha
      exact absurd ha (by simp [Analyzer.dataStructureChangeRisk])
    · rw [if_neg hd] at h
      exact absurd h (List.not_mem_nil r)

/-- C2 (amended): a changed file matching an exclusion pattern never
appears in any risk's `affectedFiles`, in `testCoverage.testFiles` or
`testCoverage.missingTests`, or in the filtered file list from which
the architecture areas are derived. (The original claim also covered
`technicalDebt[].file`, which is refuted by the counterexample: that
field is recovered from the raw, unfiltered diff text.) -/
theorem excluded_never_in_risk_or_coverage (customRules : List AnalysisRule)
    (diff : String) (files : List String) (f : String)
    (hf : matchesExcluded f = true) :
    (∀ r ∈ (Analyzer.analyze customRules diff files).risks,
      ∀ afs, r.affectedFiles = some afs → f ∉ afs) ∧
    f ∉ (Analyzer.analyze customRules diff files).testCoverage.testFiles ∧
    f ∉ (Analyzer.analyze customRules diff files).testCoverage.missingTests ∧
    f ∉ Analyzer.filterFiles files := by
  have hnf := not_mem_filterFiles files f hf
  refine ⟨?_, ?_, ?_, hnf⟩
  · intro r hr afs ha hmem
    exact hnf (assessRisks_affected_sub diff (Analyzer.filterFiles files) r hr afs ha f hmem)
  · intro hmem
    exact hnf (List.mem_of_mem_filter hmem)
  · intro hmem
    have h1 : f ∈ Analyzer.sourceFilesIn (Analyzer.filterFiles files) :=
      List.mem_of_mem_filter hmem
    exact hnf (List.mem_of_mem_filter h1)

/-- C2 (counterexample): a changed file under `node_modules` is
excluded from the filtered list, yet its TODO comment in the raw diff
produces a technical-debt item whose `file` is that excluded path
(`findFileForMatch` reads the unfiltered diff headers). -/
theorem excluded_file_in_technicalDebt_counterexample :
    ((Analyzer.analyze [] c2Diff ["node_modules/x.js"]).technicalDebt.map
      (fun i => i.file)) = [some "node_modules/x.js"] ∧
    matchesExcluded "node_modules/x.js" = true ∧
    "node_modules/x.js" ∈ ["node_modules/x.js"] := by
  refine ⟨by decide, by decide, by decide⟩

/-- Witness for C2 (amended) on a concrete excluded changed file. -/
theorem excluded_never_in_risk_or_coverage_witness :
    matchesExcluded "node_modules/x.js" = true ∧
    "node_modules/x.js" ∉
      (Analyzer.analyze [] "" ["node_modules/x.js"]).testCoverage.testFiles ∧
    "node_modules/x.js" ∉
      (Analyzer.analyze [] "" ["node_modules/x.js"]).testCoverage.missingTests ∧
    "node_modules/x.js" ∉ Analyzer.filterFiles ["node_modules/x.js"] := by
  have h := excluded_never_in_risk_or_coverage [] "" ["node_modules/x.js"]
    "node_modules/x.js" (by decide)
  exact ⟨by decide, h.2.1, h.2.2.1, h.2.2.2⟩

/-- C3: on an empty diff and empty changed-file list, `analyze` returns
the structurally valid empty result: no technical debt, no risks, empty
test lists with 100% coverage, and a LOW architecture impact with no
areas. -/
theorem empty_inputs_give_empty_result :
    Analyzer.analyze [] "" [] =
      { technicalDebt := [],
        risks := [],
        testCoverage :=
          { hasTests := false, testFiles := [], missingTests := [],
            coveragePercentage := 100 },
        architectureImpact :=
          { level := Severity.LOW, areas := [], notes := [],
            requiresReview := none } } := by decide

theorem sevRank_le_two (s : Severity) : sevRank s ≤ 2 := by
  cases s <;> simp [sevRank]

/-- C4: the architecture level never decreases through the four
successive area blocks; a file set triggering the core group or the
database group yields level HIGH with `requiresReview = true`; and a
file set triggering no group leaves the initial LOW impact with empty
areas. -/
theorem architecture_level_monotone_c4 (files : List String) :
    (∀ impact : ArchitectureImpact,
      sevRank impact.level ≤ sevRank ((Analyzer.coreStep files impact).level) ∧
      sevRank impact.level ≤ sevRank ((Analyzer.apiStep files impact).level) ∧
      sevRank impact.level ≤ sevRank ((Analyzer.configStep files impact).level) ∧
      sevRank impact.level ≤ sevRank ((Analyzer.dbStep files impact).level)) ∧
    ((Analyzer.hasCoreChanges files = true ∨ Analyzer.hasDBChanges files = true) →
      (Analyzer.analyzeArchitecture files).level = Severity.HIGH ∧
      (Analyzer.analyzeArchitecture files).requiresReview = some true) ∧
    (Analyzer.hasCoreChanges files = false → Analyzer.hasAPIChanges files = false →
     Analyzer.hasConfigChanges files = false → Analyzer.hasDBChanges files = false →
      Analyzer.analyzeArchitecture files = Analyzer.initialImpact) := by
  refine ⟨?_, ?_, ?_⟩
  · intro impact
    refine ⟨?_, ?_, ?_, ?_⟩
    · cases h : Analyzer.hasCoreChanges files
      · simp [Analyzer.coreStep, h]
      · simp only [Analyzer.coreStep, h, if_true]
        exact sevRank_le_two _
    · cases h : Analyzer.hasAPIChanges files
      · simp [Analyzer.apiStep, h]
      · cases hl : impact.level <;> simp [Analyzer.apiStep, h, hl, sevRank]
    · cases h : Analyzer.hasConfigChanges files
      · simp [Analyzer.configStep, h]
      · cases hl : impact.level <;> simp [Analyzer.configStep, h, hl, sevRank]
    · cases h : Analyzer.hasDBChanges files
      · simp [Analyzer.dbStep, h]
      · simp only [Analyzer.dbStep, h, if_true]
        exact sevRank_le_two _
  · intro hor
    cases h4 : Analyzer.hasDBChanges files
    · rcases hor with hc | hd
      · cases h2 : Analyzer.hasAPIChanges files <;>
        cases h3 : Analyzer.hasConfigChanges files <;>
        simp [Analyzer.analyzeArchitecture, Analyzer.coreStep, Analyzer.apiStep,
          Analyzer.configStep, Analyzer.dbStep, hc, h2, h3, h4]
      · rw [hd] at h4
        exact Bool.noConfusion h4
    · constructor <;>
      simp [Analyzer.analyzeArchitecture, Analyzer.dbStep, h4]
  · intro h1 h2 h3 h4
    simp [Analyzer.analyzeArchitecture, Analyzer.coreStep, Analyzer.apiStep,
      Analyzer.configStep, Analyzer.dbStep, h1, h2, h3, h4]

/-- Witness for C4 on a file set triggering the core group. -/
theorem architecture_level_monotone_c4_witness :
    (Analyzer.analyzeArchitecture ["src/core/database.ts"]).level = Severity.HIGH ∧
    (Analyzer.analyzeArchitecture ["src/core/database.ts"]).requiresReview = some true :=
  (architecture_level_monotone_c4 ["src/core/database.ts"]).2.1 (Or.inl (by decide))

theorem detectSt_fst_indep (dl : List String) (d : String) :
    ∀ (rules : List AnalysisRule) (st st' : List ℕ),
      (Analyzer.detectTechnicalDebtSt dl d rules st).1 =
      (Analyzer.detectTechnicalDebtSt dl d rules st').1 := by
  intro rules
  induction rules with
  | nil => intro st st'; rfl
  | cons rule rest ih =>
      intro st st'
      by_cases hcat : Analyzer.isTechnicalDebtRule rule.category = true
      · simp only [Analyzer.detectTechnicalDebtSt, hcat, Bool.not_true, Bool.false_eq_true,
          if_false, Analyzer.jsMatchGSt]
        rw [ih st.tail st'.tail]
      · have hcat' : Analyzer.isTechnicalDebtRule rule.category = false :=
          Bool.not_eq_true _ ▸ Bool.eq_false_iff.mpr hcat
        simp only [Analyzer.detectTechnicalDebtSt, hcat', Bool.not_false, if_true]
        rw [ih st.tail st'.tail]

theorem detectSt_fst_pure (d : String) (fs : List String) :
    ∀ (rules : List AnalysisRule) (st : List ℕ),
      (Analyzer.detectTechnicalDebtSt (splitCh '\n' d) d rules st).1 =
      Analyzer.detectTechnicalDebt rules d fs := by
  intro rules
  induction rules with
  | nil => intro st; rfl
  | cons rule rest ih =>
      intro st
      by_cases hcat : Analyzer.isTechnicalDebtRule rule.category = true
      · simp only [Analyzer.detectTechnicalDebtSt, hcat, Bool.not_true, Bool.false_eq_true,
          if_false, Analyzer.jsMatchGSt, Analyzer.detectTechnicalDebt, List.flatMap_cons]
        rw [ih st.tail]
        rfl
      · have hcat' : Analyzer.isTechnicalDebtRule rule.category = false :=
          Bool.not_eq_true _ ▸ Bool.eq_false_iff.mpr hcat
        simp only [Analyzer.detectTechnicalDebtSt, hcat', Bool.not_false, if_true,
          Analyzer.detectTechnicalDebt, List.flatMap_cons]
        rw [ih st.tail]
        rfl

/-- C5: `analyze` is a pure, deterministic function of its two inputs.
In the stateful model that threads the `lastIndex` of each global rule
regex, the result is independent of the incoming regex state (because
`String.prototype.match` with a global regex resets `lastIndex` before
scanning), and coincides with the pure `analyze`; hence two successive
calls on the same analyzer return structurally identical results. -/
theorem analyze_state_independent (customRules : List AnalysisRule)
    (st st' : List ℕ) (diff : String) (files : List String) :
    (Analyzer.analyzeSt customRules st diff files).1 =
      (Analyzer.analyzeSt customRules st' diff files).1 ∧
    (Analyzer.analyzeSt customRules st diff files).1 =
      Analyzer.analyze customRules diff files := by
  have hshape : ∀ stx : List ℕ,
      (Analyzer.analyzeSt customRules stx diff files).1 =
      { technicalDebt := (Analyzer.detectTechnicalDebtSt (splitCh '\n' diff) diff
          (Analyzer.analyzerRules customRules) stx).1,
        risks := Analyzer.assessRisks diff (Analyzer.filterFiles files),
        testCoverage := Analyzer.checkTestCoverage (Analyzer.filterFiles files),
        architectureImpact := Analyzer.analyzeArchitecture (Analyzer.filterFiles files) } := by
    intro stx
    unfold Analyzer.analyzeSt
    rcases h : Analyzer.detectTechnicalDebtSt (splitCh '\n' diff) diff
      (Analyzer.analyzerRules customRules) stx with ⟨debt, st2⟩
    simp [h]
  constructor
  · rw [hshape st, hshape st']
    rw [detectSt_fst_indep (splitCh '\n' diff) diff (Analyzer.analyzerRules customRules) st st']
  · rw [hshape st]
    rw [detectSt_fst_pure diff (Analyzer.filterFiles files)
      (Analyzer.analyzerRules customRules) st]
    rfl

theorem areaRisk_type_ne_dsc (files : List String) (r : RiskItem)
    (hrm : r ∈ RISK_PATTERNS.filterMap (fun entry =>
      if (files.filter (fun file => entry.2.patternTest file)).isEmpty then none
      else some
        { type := Analyzer.capitalize entry.1,
          severity := entry.2.severity,
          description := entry.2.description,
          category := Analyzer.getRiskCategory entry.1,
          affectedFiles := some (files.filter (fun file => entry.2.patternTest file)) })) :
    (r.type == "Data Structure Change") = false := by
  obtain ⟨entry, hent, hsome⟩ := List.mem_filterMap.mp hrm
  by_cases hc : (files.filter (fun file => entry.2.patternTest file)).isEmpty
  · rw [if_pos hc] at hsome
    exact Option.noConfusion hsome
  · rw [if_neg hc] at hsome
    have hr := Option.some.inj hsome
    rw [← hr]
    fin_cases hent <;> rfl

/-- C6: the risks list contains exactly one `Data Structure Change`
item (of MEDIUM severity) exactly when `hasDataStructureChanges` holds,
and that predicate holds iff some data pattern matches at least one
*removal segment* and at least one *addition segment* of the diff —
segments running from the first `-` (respectively `+`) of a line to its
end, wherever that character occurs in the line. -/
theorem data_structure_change_c6 (customRules : List AnalysisRule) (diff : String)
    (files : List String) :
    ((Analyzer.analyze customRules diff files).risks.filter
        (fun r => r.type == "Data Structure Change") =
      (if Analyzer.hasDataStructureChanges diff then [Analyzer.dataStructureChangeRisk]
       else [])) ∧
    Analyzer.dataStructureChangeRisk.severity = Severity.MEDIUM ∧
    (Analyzer.hasDataStructureChanges diff = true ↔
      ∃ p ∈ Analyzer.dataPatterns,
        (∃ rm ∈ Analyzer.removalsOf diff, reTest p rm = true) ∧
        (∃ ad ∈ Analyzer.additionsOf diff, reTest p ad = true)) := by
  refine ⟨?_, rfl, ?_⟩
  · have hrisks : (Analyzer.analyze customRules diff files).risks =
        Analyzer.assessRisks diff (Analyzer.filterFiles files) := rfl
    rw [hrisks]
    unfold Analyzer.assessRisks
    rw [List.filter_append, List.filter_append]
    have hA : (RISK_PATTERNS.filterMap (fun entry : String × RiskConfig =>
        if ((Analyzer.filterFiles files).filter
            (fun file => entry.2.patternTest file)).isEmpty then none
        else some
          ({ type := Analyzer.capitalize entry.1,
             severity := entry.2.severity,
             description := entry.2.description,
             category := Analyzer.getRiskCategory entry.1,
             affectedFiles := some ((Analyzer.filterFiles files).filter
               (fun file => entry.2.patternTest file)) } : RiskItem))).filter
        (fun r => r.type == "Data Structure Change") = [] := by
      rw [List.filter_eq_nil_iff]
      intro r hr
      rw [areaRisk_type_ne_dsc (Analyzer.filterFiles files) r hr]
      exact Bool.false_ne_true
    rw [hA]
    have hB : (if Analyzer.hasBreakingChanges diff then [Analyzer.breakingChangeRisk]
        else []).filter (fun r => r.type == "Data Structure Change") = [] := by
      by_cases hb : Analyzer.hasBreakingChanges diff = true
      · rw [if_pos hb]
        decide
      · rw [if_neg hb]
        rfl
    rw [hB]
    have hC : (if Analyzer.hasDataStructureChanges diff
        then [Analyzer.dataStructureChangeRisk] else []).filter
        (fun r => r.type == "Data Structure Change") =
        (if Analyzer.hasDataStructureChanges diff
         then [Analyzer.dataStructureChangeRisk] else []) := by
      by_cases hd : Analyzer.hasDataStructureChanges diff = true
      · rw [if_pos hd]
        decide
      · rw [if_neg hd]
        rfl
    rw [hC]
    simp
  · unfold Analyzer.hasDataStructureChanges
    simp only [List.any_eq_true, Bool.and_eq_true]

/-- C6 (counterexample): a diff consisting of one *added* line (no line
has a `-` prefix) still produces the `Data Structure Change` item,
because the `-` inside the line starts a removal segment containing the
interface declaration; this refutes the claim's reading of `-`-prefixed
removed lines. -/
theorem data_structure_change_counterexample :
    ((Analyzer.analyze [] c6Diff []).risks.map (fun r => r.type)) =
      ["Data Structure Change"] ∧
    (splitCh '\n' c6Diff).all (fun l => !(startsW l "-")) = true := by
  exact ⟨by decide, by decide⟩

/-- Helper: the nested-if type selection of the source equals the
ordered first-match rule list of the amended reading. -/
theorem typeBranchEq (a b k e f : Bool) :
    (if a = true then "test" else if b = true then "docs"
     else if k = true then
       (if e = true then "feat" else if f = true then "fix" else "refactor")
     else "chore") =
    McpFull.firstRuleMatch [(a, "test"), (b, "docs"), (k && e, "feat"),
      (k && f, "fix"), (k, "refactor")] "chore" := by
  cases a <;> cases b <;> cases k <;> cases e <;> cases f <;> rfl

/-- C7 (amended): the drafter equals the first-match rule list in which
the `feat` rule needs a function/class/const keyword *and* both `export`
and `new ` in the diff, the `fix` rule needs the keyword *and* `fix` or
`bug`, the `refactor` rule needs the keyword alone, and `chore` is the
default; the description cases are as claimed except that the joined
basenames keep their extensions and the many-file count is the total
file count minus one. -/
theorem commit_message_drafter_amended (analysis : AnalysisResult)
    (files : List String) (diff : String) :
    McpFull.generateCommitMessage analysis files diff =
      McpFull.draftSpecAmended files diff := by
  unfold McpFull.generateCommitMessage McpFull.draftSpecAmended
  cases ha : files.any (fun f => strContains f "test" || strContains f "spec") <;>
    cases hb : files.any (fun f => endsW f ".md" || strContains f "doc") <;>
    cases hk1 : strContains diff "function" <;>
    cases hk2 : strContains diff "class" <;>
    cases hk3 : strContains diff "const" <;>
    cases he1 : strContains diff "export" <;>
    cases he2 : strContains diff "new " <;>
    cases hf1 : strContains diff "fix" <;>
    cases hf2 : strContains diff "bug" <;>
    rfl

/-- C7 (counterexample): a diff exporting a new function (`export
function foo`, no `new ` token) on a single non-test, non-doc source
file is typed `refactor` by the code, where the claim's reading — a
function/class-like keyword combined with an export-like keyword — would
type it `feat`. -/
theorem commit_message_drafter_counterexample :
    McpFull.generateCommitMessage (Analyzer.analyze [] "" []) ["src/app.ts"]
        "export function foo" = "refactor: update app" ∧
    McpFull.claimDraft ["src/app.ts"] "export function foo" = "feat: update app" ∧
    McpFull.generateCommitMessage (Analyzer.analyze [] "" []) ["src/app.ts"]
        "export function foo" ≠
      McpFull.claimDraft ["src/app.ts"] "export function foo" := by
  exact ⟨by decide, by decide, by decide⟩

/-- C8 (code bug): configuration validation never inspects
`analysis.customRules` — replacing the custom-rule list with anything
leaves the validation result unchanged for every configuration — and the
concrete configuration whose only custom rule misses both its `pattern`
and its `severity` is reported valid with no errors, instead of failing
fast with a configuration error. -/
theorem malformed_custom_rule_accepted :
    (∀ (config : ConfigLoader.AiCommitConfig)
        (rules : List ConfigLoader.CustomRule),
      ConfigLoader.validate (setCustomRules config rules) =
        ConfigLoader.validate config) ∧
    ConfigLoader.validate c8Config =
      { valid := true, errors := [] } ∧
    (c8Config.analysis.map (fun a => a.customRules.any
      (fun r => r.pattern.isNone && r.severity.isNone))).getD false = true := by
  refine ⟨?_, by decide, by decide⟩
  intro config rules
  obtain ⟨p, a, o⟩ := config
  cases a <;> rfl

theorem containsL_length_le (p : List Char) :
    ∀ s, containsL s p = true → p.length ≤ s.length := by
  intro s
  induction s with
  | nil =>
    intro h
    cases p with
    | nil => exact le_refl _
    | cons pc pt => simp [containsL] at h
  | cons c t ih =>
    intro h
    cases p with
    | nil => simp
    | cons pc pt =>
      simp only [containsL, Bool.or_eq_true] at h
      rcases h with h1 | h2
      · exact List.IsPrefix.length_le (List.isPrefixOf_iff_prefix.mp h1)
      · exact le_trans (ih h2) (by simp)

theorem containsL_of_suffix (p : List Char) :
    ∀ s, p <:+ s → containsL s p = true := by
  intro s
  induction s with
  | nil =>
    intro h
    have hp : p = [] := List.suffix_nil.mp h
    subst hp
    rfl
  | cons c t ih =>
    intro h
    cases p with
    | nil => rfl
    | cons pc pt =>
      obtain ⟨pre, hps⟩ := h
      simp only [containsL]
      cases pre with
      | nil =>
        simp only [List.nil_append] at hps
        have hpre : (pc :: pt).isPrefixOf (c :: t) = true := by
          rw [hps]
          exact List.isPrefixOf_iff_prefix.mpr (List.prefix_refl _)
        simp [hpre]
      | cons d pre' =>
        have ht : (pc :: pt) <:+ t := by
          injection hps with h1 h2
          exact ⟨pre', h2⟩
        simp [ih ht]

theorem replaceFirstL_nil_length (p : List Char) (hp : p ≠ []) :
    ∀ s, containsL s p = true →
      (replaceFirstL p [] s).length + p.length = s.length := by
  intro s
  induction s with
  | nil =>
    intro h
    cases p with
    | nil => exact absurd rfl hp
    | cons pc pt => simp [containsL] at h
  | cons c t ih =>
    intro h
    by_cases hpre : p.isPrefixOf (c :: t) = true
    · have hple : p.length ≤ (c :: t).length :=
        List.IsPrefix.length_le (List.isPrefixOf_iff_prefix.mp hpre)
      simp only [replaceFirstL, hpre, if_true, List.nil_append, List.length_drop,
        List.length_cons] at hple ⊢
      omega
    · rw [Bool.not_eq_true] at hpre
      have hrest : containsL t p = true := by
        cases p with
        | nil => exact absurd rfl hp
        | cons pc pt =>
          simp only [containsL, hpre, Bool.false_or] at h
          exact h
      have hih := ih hrest
      have hlen := containsL_length_le p t hrest
      simp only [replaceFirstL, hpre, Bool.false_eq_true, if_false, List.length_cons]
      omega

theorem endsW_trans (f p q : String) (h : endsW f p = true)
    (hq : endsW p q = true) : endsW f q = true := by
  unfold endsW at h hq ⊢
  exact List.isSuffixOf_iff_suffix.mpr
    (List.IsSuffix.trans (List.isSuffixOf_iff_suffix.mp hq)
      (List.isSuffixOf_iff_suffix.mp h))

theorem checkTestCoverage_hasTests (files : List String) :
    (Analyzer.checkTestCoverage files).hasTests =
      !(Analyzer.testFilesIn files).isEmpty := rfl

/-- For a file under `src/` with a `.ts` extension, none of its test
file variations is the file itself: the `.test`/`.spec` insertions grow
the name by five characters and the `tests/`/`__tests__/` directory
replacements grow it by two, respectively six, characters. -/
theorem variations_ne_self (f v : String) (hsrc : startsW f "src/" = true)
    (hts : endsW f ".ts" = true) (hv : v ∈ Analyzer.getTestFileVariations f) :
    v ≠ f := by
  have hsuf : (".ts" : String).data <:+ f.data :=
    List.isSuffixOf_iff_suffix.mp hts
  have hcont : containsL f.data (".ts" : String).data = true :=
    containsL_of_suffix _ _ hsuf
  have hts3 : (".ts" : String).data.length = 3 := rfl
  have h3 : 3 ≤ f.data.length := by
    have := List.IsSuffix.length_le hsuf
    omega
  have h4 : 4 ≤ f.data.length := by
    have := List.IsPrefix.length_le (List.isPrefixOf_iff_prefix.mp hsrc)
    simpa using this
  have hbase : (replaceFirstStr f ".ts" "").data.length + 3 = f.data.length := by
    unfold replaceFirstStr
    rw [if_neg (by decide)]
    exact replaceFirstL_nil_length (".ts" : String).data (by decide) f.data hcont
  have hvar : Analyzer.getTestFileVariations f =
      [replaceFirstStr f ".ts" "" ++ ".test" ++ ".ts",
       replaceFirstStr f ".ts" "" ++ ".spec" ++ ".ts",
       "tests/" ++ (⟨f.data.drop 4⟩ : String),
       "__tests__/" ++ (⟨f.data.drop 4⟩ : String)] := by
    simp only [Analyzer.getTestFileVariations]
    rw [if_pos hts, if_pos hsrc, if_pos hsrc, if_neg (by decide)]
    rw [List.append_nil]
  rw [hvar] at hv
  have hdrop : (f.data.drop 4).length = f.data.length - 4 := List.length_drop 4 f.data
  simp only [List.mem_cons, List.not_mem_nil, or_false] at hv
  have hfl : f.data.length = f.length := rfl
  have hbase2 : (replaceFirstStr f ".ts" "").length + 3 = f.length := hbase
  have hlen : v.data.length ≠ f.data.length := by
    rcases hv with h | h | h | h <;>
      · rw [h]
        simp [String.data_append]
        omega
  intro hEq
  exact hlen (congrArg (fun s => s.data.length) hEq)

/-- C9 (amended): a changed file that survives exclusion filtering and
matches both the source-extension pattern and a test-file pattern is
counted among the source files and among the test files, and it lands in
`missingTests` exactly when none of its own test-file variations is a
changed test file; the claimed consequence — a single changed `.test.ts`
file yields `hasTests = true` with `coveragePercentage = 0` — holds for
files under `src/` (whose variations never equal the file itself), but
not in general. -/
theorem test_source_dual_membership_c9 (customRules : List AnalysisRule)
    (diff : String) :
    (∀ (files : List String) (f : String),
      f ∈ Analyzer.filterFiles files → matchesSourceFile f = true →
      matchesTestFile f = true →
      f ∈ Analyzer.sourceFilesIn (Analyzer.filterFiles files) ∧
      f ∈ (Analyzer.analyze customRules diff files).testCoverage.testFiles ∧
      (f ∈ (Analyzer.analyze customRules diff files).testCoverage.missingTests ↔
        ∀ v ∈ Analyzer.getTestFileVariations f,
          v ∉ (Analyzer.analyze customRules diff files).testCoverage.testFiles)) ∧
    (∀ f : String, startsW f "src/" = true → endsW f ".test.ts" = true →
      matchesExcluded f = false →
      (Analyzer.analyze customRules diff [f]).testCoverage.hasTests = true ∧
      (Analyzer.analyze customRules diff [f]).testCoverage.coveragePercentage = 0) := by
  have htcT : ∀ files, (Analyzer.analyze customRules diff files).testCoverage.testFiles =
      Analyzer.testFilesIn (Analyzer.filterFiles files) := fun _ => rfl
  have htcM : ∀ files, (Analyzer.analyze customRules diff files).testCoverage.missingTests =
      Analyzer.missingTestsIn (Analyzer.filterFiles files) := fun _ => rfl
  constructor
  · intro files f hf hsrcM htestM
    have hfs : f ∈ Analyzer.sourceFilesIn (Analyzer.filterFiles files) :=
      List.mem_filter.mpr ⟨hf, hsrcM⟩
    have hft : f ∈ Analyzer.testFilesIn (Analyzer.filterFiles files) :=
      List.mem_filter.mpr ⟨hf, htestM⟩
    refine ⟨hfs, by rw [htcT]; exact hft, ?_⟩
    rw [htcM, htcT]
    unfold Analyzer.missingTestsIn
    rw [List.mem_filter]
    constructor
    · rintro ⟨-, hall⟩ v hv hvmem
      rw [Bool.not_eq_true'] at hall
      exact (List.any_eq_false.mp hall v hv) (List.elem_iff.mpr hvmem)
    · intro hnone
      refine ⟨hfs, ?_⟩
      rw [Bool.not_eq_true']
      rw [List.any_eq_false]
      intro v hv hc
      exact hnone v hv (List.elem_iff.mp hc)
  · intro f hsrc htest hexc
    have hts : endsW f ".ts" = true := endsW_trans f ".test.ts" ".ts" htest (by decide)
    have hmt : matchesTestFile f = true := by
      unfold matchesTestFile
      rw [htest]
      rfl
    have hms : matchesSourceFile f = true := by
      unfold matchesSourceFile
      simp [hts]
    have hF : Analyzer.filterFiles [f] = [f] := by
      simp [Analyzer.filterFiles, List.filter_cons, hexc]
    have hS : Analyzer.sourceFilesIn [f] = [f] := by
      simp [Analyzer.sourceFilesIn, List.filter_cons, hms]
    have hT : Analyzer.testFilesIn [f] = [f] := by
      simp [Analyzer.testFilesIn, List.filter_cons, hmt]
    have hany : (Analyzer.getTestFileVariations f).any
        (fun t => [f].contains t) = false := by
      rw [List.any_eq_false]
      intro v hv hc
      exact variations_ne_self f v hsrc hts hv
        (List.mem_singleton.mp (List.elem_iff.mp hc))
    have hM : Analyzer.missingTestsIn [f] = [f] := by
      unfold Analyzer.missingTestsIn
      rw [hS, hT, List.filter_cons, hany]
      rfl
    constructor
    · have hht : (Analyzer.analyze customRules diff [f]).testCoverage.hasTests =
          !(Analyzer.testFilesIn (Analyzer.filterFiles [f])).isEmpty := rfl
      rw [hht, hF, hT]
      rfl
    · have hcp : (Analyzer.analyze customRules diff [f]).testCoverage.coveragePercentage =
          (Analyzer.checkTestCoverage (Analyzer.filterFiles [f])).coveragePercentage := rfl
      rw [hcp, hF, checkTestCoverage_pct, hS, hM]
      simp only [List.length_cons, List.length_nil]
      decide

/-- Witness for C9 (amended) at `src/utils.test.ts`: it is counted as a
source file, and the single-file analysis reports tests present with a
coverage percentage of zero. -/
theorem test_source_dual_membership_c9_witness :
    "src/utils.test.ts" ∈
      Analyzer.sourceFilesIn (Analyzer.filterFiles ["src/utils.test.ts"]) ∧
    (Analyzer.analyze [] "" ["src/utils.test.ts"]).testCoverage.hasTests = true ∧
    (Analyzer.analyze [] "" ["src/utils.test.ts"]).testCoverage.coveragePercentage = 0 :=
  ⟨((test_source_dual_membership_c9 [] "").1 ["src/utils.test.ts"] "src/utils.test.ts"
      (by decide) (by decide) (by decide)).1,
   ((test_source_dual_membership_c9 [] "").2 "src/utils.test.ts"
      (by decide) (by decide) (by decide)).1,
   ((test_source_dual_membership_c9 [] "").2 "src/utils.test.ts"
      (by decide) (by decide) (by decide)).2⟩

/-- C9 (counterexample): a single changed `.test.ts` file that does not
live under `src/` is one of its own test-file variations (the
`src/`→`tests/` replacement is a no-op there), so it is not missing a
test and the coverage percentage is `100`, not `0`. -/
theorem test_source_file_coverage_counterexample :
    endsW "foo/utils.test.ts" ".test.ts" = true ∧
    (Analyzer.analyze [] "" ["foo/utils.test.ts"]).testCoverage.hasTests = true ∧
    (Analyzer.analyze [] "" ["foo/utils.test.ts"]).testCoverage.coveragePercentage = 100 := by
  exact ⟨by decide, by decide, by decide⟩

/-- C10: appending a custom rule whose category is not a technical-debt
category (`technical-debt`, `code-quality`, `documentation`) leaves
`analyze` unchanged on every input: the technical-debt pass skips the
rule, and the risk, test-coverage and architecture passes never read the
rule list. -/
theorem non_debt_custom_rule_inert_c10 (customRules : List AnalysisRule)
    (r : AnalysisRule) (diff : String) (files : List String)
    (hr : Analyzer.isTechnicalDebtRule r.category = false) :
    Analyzer.analyze (customRules ++ [r]) diff files =
      Analyzer.analyze customRules diff files := by
  simp only [Analyzer.analyze]
  have hdet : Analyzer.detectTechnicalDebt (Analyzer.analyzerRules (customRules ++ [r]))
      diff (Analyzer.filterFiles files) =
      Analyzer.detectTechnicalDebt (Analyzer.analyzerRules customRules)
        diff (Analyzer.filterFiles files) := by
    simp only [Analyzer.detectTechnicalDebt, Analyzer.analyzerRules]
    rw [← List.append_assoc, List.flatMap_append]
    simp [hr]
  rw [hdet]

/-- Witness for C10 at the well-formed `security`-category custom rule:
analysis of a password-introducing diff is identical with and without
the rule. -/
theorem non_debt_custom_rule_inert_c10_witness :
    Analyzer.analyze ([] ++ [securityCustomRule]) "+ password = 1" ["src/app.ts"] =
      Analyzer.analyze [] "+ password = 1" ["src/app.ts"] :=
  non_debt_custom_rule_inert_c10 [] securityCustomRule "+ password = 1"
    ["src/app.ts"] (by decide)

end AiCommit
